import Mathlib

/-!
Verification development for the grid-based orthogonal edge router
(`routeAllEdges` and friends in `src/components/Toolbar.jsx`).

The router is embedded shallowly: JavaScript numbers become `Rat`
(all arithmetic performed by the router on the inputs used here is exact),
JavaScript arrays become `List`s, the `Uint8Array` occupancy grid becomes a
decidable cell predicate derived from the same clamped rectangle bounds the
marking loops use, the usage grid becomes a list of marked cells, JS `Map`s
become association lists where a `set` prepends (so `lookup` sees the newest
binding), and the binary `MinHeap` is replicated verbatim on a list so that
pop order (and hence `astar`'s result) matches the source exactly.  The JS
object keyed by the template string `nodeId:side` is modeled as an
association list keyed by the pair `(nodeId, side)`, and JS object key
iteration (insertion order) is modeled by keeping those lists in insertion
order.  The unbounded `while` loop of `astar` is given a large fuel; running
out of fuel returns `none`, which coincides with the source's search-failure
result (the source's loop always terminates, and all concrete evaluations
below stay far below the fuel bound).
-/

-- Batteries marks rational arithmetic irreducible; the concrete route
-- evaluations below are closed by kernel reduction, which needs to unfold
-- it.
attribute [local semireducible] Rat.add Rat.sub Rat.mul Rat.inv

namespace Router

/-- A point of a polyline (world coordinates). -/
structure Point where
  x : Rat
  y : Rat
deriving DecidableEq, Repr, Inhabited

/-- A diagram node: `{id, x, y, width, height}`. -/
structure Node where
  id : String
  x : Rat
  y : Rat
  width : Rat
  height : Rat
deriving DecidableEq, Repr, Inhabited

/-- One of the four node sides. -/
inductive Side where
  | top
  | right
  | bottom
  | left
deriving DecidableEq, Repr, Inhabited

/-- A pinned-port descriptor `{side, offset}`. -/
structure PortSpec where
  side : Side
  offset : Rat
deriving DecidableEq, Repr, Inhabited

/-- An edge: `{id, from, to, fromPort?, toPort?}` (`from`/`to` are Lean
keywords, so the fields are `fromId`/`toId`). -/
structure Edge where
  id : String
  fromId : String
  toId : String
  fromPort : Option PortSpec := none
  toPort : Option PortSpec := none
deriving DecidableEq, Repr, Inhabited

/-- A resolved port `{side, offset, dir, x, y}`. -/
structure Port where
  side : Side
  offset : Rat
  dir : Nat
  x : Rat
  y : Rat
deriving DecidableEq, Repr, Inhabited

-- Constants of the router.
def CELL : Rat := 20
def NODE_PAD : Rat := 18
def TURN_COST : Nat := 4
def CROSS_COST : Nat := 16
def PORT_EXTEND : Rat := 28
def GRID_MARGIN : Rat := 160

/-- `MIN_SEG = CELL * 1.2` from `smoothKinks`. -/
def MIN_SEG : Rat := CELL * (6 / 5)

/-- `DX` of the source, as world-coordinate deltas (0=right,1=down,2=left,3=up). -/
def DX : Nat → Rat
  | 0 => 1
  | 1 => 0
  | 2 => -1
  | _ => 0

/-- `DY` of the source, as world-coordinate deltas. -/
def DY : Nat → Rat
  | 0 => 0
  | 1 => 1
  | 2 => 0
  | _ => -1

/-- `DX` as a grid-cell delta. -/
def DXI : Nat → Int
  | 0 => 1
  | 1 => 0
  | 2 => -1
  | _ => 0

/-- `DY` as a grid-cell delta. -/
def DYI : Nat → Int
  | 0 => 0
  | 1 => 1
  | 2 => 0
  | _ => -1

/-- `SIDE_TO_DIR = {right: 0, bottom: 1, left: 2, top: 3}`. -/
def SIDE_TO_DIR : Side → Nat
  | .right => 0
  | .bottom => 1
  | .left => 2
  | .top => 3

/-- `Math.round` of JavaScript on a rational: round half toward plus infinity. -/
def jsRound (q : Rat) : Int := (q + 1 / 2).floor

/-- The bounding box computed by `computeBBox`. -/
structure BBox where
  minX : Rat
  minY : Rat
  maxX : Rat
  maxY : Rat
deriving DecidableEq, Repr, Inhabited

/-- `computeBBox`: min/max over all node rectangles, inflated by
`GRID_MARGIN`.  The source initializes the fold with infinities; every call
site guards `nodes.length > 0`, so the empty case here is irrelevant junk. -/
def computeBBox (nodes : List Node) : BBox :=
  match nodes with
  | [] => ⟨-GRID_MARGIN, -GRID_MARGIN, GRID_MARGIN, GRID_MARGIN⟩
  | n :: rest =>
      let mnX := rest.foldl (fun a m => min a m.x) n.x
      let mnY := rest.foldl (fun a m => min a m.y) n.y
      let mxX := rest.foldl (fun a m => max a (m.x + m.width)) (n.x + n.width)
      let mxY := rest.foldl (fun a m => max a (m.y + m.height)) (n.y + n.height)
      ⟨mnX - GRID_MARGIN, mnY - GRID_MARGIN, mxX + GRID_MARGIN, mxY + GRID_MARGIN⟩

/-- `autoSide`: the side of `fromNode` facing `toNode` (ties favor the
horizontal axis). -/
def autoSide (fromNode toNode : Node) : Side :=
  let dx := (toNode.x + toNode.width / 2) - (fromNode.x + fromNode.width / 2)
  let dy := (toNode.y + toNode.height / 2) - (fromNode.y + fromNode.height / 2)
  if |dx| ≥ |dy| then (if dx ≥ 0 then .right else .left)
  else (if dy ≥ 0 then .bottom else .top)

/-- `portToWorld`: interpolate an offset along a node side. -/
def portToWorld (node : Node) (side : Side) (offset : Rat) : Point :=
  match side with
  | .top => ⟨node.x + node.width * offset, node.y⟩
  | .right => ⟨node.x + node.width, node.y + node.height * offset⟩
  | .bottom => ⟨node.x + node.width * offset, node.y + node.height⟩
  | .left => ⟨node.x, node.y + node.height * offset⟩

/-- `nodes.find(n => n.id === i)`. -/
def findNode (nodes : List Node) (i : String) : Option Node :=
  nodes.find? (fun n => n.id = i)

-- ── dedup ────────────────────────────────────────────────────

/-- First stage of `dedup`: drop a point equal to the previously kept one. -/
def dedup1 (prev : Point) : List Point → List Point
  | [] => []
  | c :: rest => if c = prev then dedup1 prev rest else c :: dedup1 c rest

/-- Second stage of `dedup` (also the collapsing loop of
`simplifyGridPath`): drop an interior point collinear (in one coordinate)
with the previously kept point and the original next point; the final point
is always pushed. -/
def dedup2 (prev : Point) : List Point → List Point
  | [] => []
  | [c] => [c]
  | c :: n :: rest =>
      if (prev.x = c.x ∧ c.x = n.x) ∨ (prev.y = c.y ∧ c.y = n.y) then
        dedup2 prev (n :: rest)
      else
        c :: dedup2 c (n :: rest)

/-- `dedup`: remove consecutive duplicates, then collapse collinear interior
points. -/
def dedup (pts : List Point) : List Point :=
  match pts with
  | [] => []
  | [p] => [p]
  | p :: rest =>
      let r := p :: dedup1 p rest
      match r with
      | [] => r
      | [_] => r
      | [_, _] => r
      | q :: qrest => q :: dedup2 q qrest

-- ── smoothKinks ──────────────────────────────────────────────

/-- One pass of `smoothKinks`, carried out with the output list reversed
(`outRev`) so the source's `out[out.length-1]` / `out[out.length-2]` are the
first two entries.  Returns the pass output and the `changed` flag. -/
def skLoop (outRev : List Point) (changed : Bool) :
    List Point → List Point × Bool
  | [] => (outRev.reverse, changed)
  | cur :: rest =>
      match outRev with
      | [] => skLoop [cur] changed rest
      | prev :: outTail =>
          let dx := |cur.x - prev.x|
          let dy := |cur.y - prev.y|
          let segLen := dx + dy
          match outTail with
          | pp :: _ =>
              if 0 < segLen ∧ segLen < MIN_SEG then
                if dx = 0 ∧ dy < MIN_SEG then
                  if pp.y = prev.y then
                    skLoop (⟨prev.x, cur.y⟩ :: outTail) true rest
                  else if pp.x = prev.x then
                    skLoop (prev :: outTail) true rest
                  else
                    skLoop (cur :: prev :: outTail) changed rest
                else if dy = 0 ∧ dx < MIN_SEG then
                  if pp.x = prev.x then
                    skLoop (⟨cur.x, prev.y⟩ :: outTail) true rest
                  else if pp.y = prev.y then
                    skLoop (prev :: outTail) true rest
                  else
                    skLoop (cur :: prev :: outTail) changed rest
                else
                  skLoop (cur :: prev :: outTail) changed rest
              else
                skLoop (cur :: prev :: outTail) changed rest
          | [] => skLoop (cur :: prev :: outTail) changed rest

/-- The bounded pass loop of `smoothKinks` (`for pass in 0..3`, breaking
when a pass makes no change; after each pass the output is `dedup`ed). -/
def skPasses : Nat → List Point → List Point
  | 0, result => result
  | k + 1, result =>
      match result with
      | [] => []
      | p :: rest =>
          let s := skLoop [p] false rest
          let result' := dedup s.1
          if s.2 then skPasses k result' else result'

/-- `smoothKinks`: merge segments shorter than `MIN_SEG` into an adjacent
segment of the same axis, in up to 4 passes. -/
def smoothKinks (pts : List Point) : List Point :=
  if pts.length < 4 then pts else skPasses 4 pts

-- ── enforceOrthogonal ────────────────────────────────────────

/-- The loop of `enforceOrthogonal`, with the output reversed: on a diagonal
pair, insert one elbow, continuing the incoming axis when known. -/
def eoLoop (outRev : List Point) : List Point → List Point
  | [] => outRev.reverse
  | cur :: rest =>
      match outRev with
      | [] => eoLoop [cur] rest
      | prev :: outTail =>
          if prev.x ≠ cur.x ∧ prev.y ≠ cur.y then
            let horizFirst : Bool :=
              match outTail with
              | pp :: _ => pp.x != prev.x
              | [] => true
            if horizFirst then
              eoLoop (cur :: ⟨cur.x, prev.y⟩ :: prev :: outTail) rest
            else
              eoLoop (cur :: ⟨prev.x, cur.y⟩ :: prev :: outTail) rest
          else
            eoLoop (cur :: prev :: outTail) rest

/-- `enforceOrthogonal`: guarantee every segment is purely horizontal or
vertical by inserting elbows, then `dedup`. -/
def enforceOrthogonal (pts : List Point) : List Point :=
  match pts with
  | [] => pts
  | [_] => pts
  | p :: rest => dedup (eoLoop [p] rest)

-- ── segmentIntersectsRect / rerouteAroundObstacles ───────────

/-- `segmentIntersectsRect`: does the axis-aligned segment `a → b` cross the
`pad`-padded rectangle of node `n`?  Diagonal segments report `false`. -/
def segmentIntersectsRect (a b : Point) (n : Node) (pad : Rat) : Bool :=
  let left := n.x - pad
  let right := n.x + n.width + pad
  let top := n.y - pad
  let bottom := n.y + n.height + pad
  if a.x = b.x then
    if a.x ≤ left ∨ a.x ≥ right then false
    else if max a.y b.y ≤ top ∨ min a.y b.y ≥ bottom then false
    else true
  else if a.y = b.y then
    if a.y ≤ top ∨ a.y ≥ bottom then false
    else if max a.x b.x ≤ left ∨ min a.x b.x ≥ right then false
    else true
  else false

/-- The `PAD` constant local to `rerouteAroundObstacles`. -/
def RR_PAD : Rat := 4

/-- The four detour points `rerouteAroundObstacles` inserts for a segment
`a → b` hitting node `n`. -/
def detourPoints (a b : Point) (n : Node) : List Point :=
  let left := n.x - NODE_PAD - RR_PAD
  let right := n.x + n.width + NODE_PAD + RR_PAD
  let top := n.y - NODE_PAD - RR_PAD
  let bottom := n.y + n.height + NODE_PAD + RR_PAD
  if a.x = b.x then
    let goingDown := b.y > a.y
    let distLeft := |a.x - left|
    let distRight := |a.x - right|
    let detourX := if distLeft ≤ distRight then left else right
    let entryY := if goingDown then top else bottom
    let exitY := if goingDown then bottom else top
    [⟨a.x, entryY⟩, ⟨detourX, entryY⟩, ⟨detourX, exitY⟩, ⟨a.x, exitY⟩]
  else
    let goingRight := b.x > a.x
    let distTop := |a.y - top|
    let distBottom := |a.y - bottom|
    let detourY := if distTop ≤ distBottom then top else bottom
    let entryX := if goingRight then left else right
    let exitX := if goingRight then right else left
    [⟨entryX, a.y⟩, ⟨entryX, detourY⟩, ⟨exitX, detourY⟩, ⟨exitX, a.y⟩]

/-- One pass of `rerouteAroundObstacles`, output reversed; `a` is the last
kept point.  The first obstacle whose `RR_PAD`-padded rectangle the segment
crosses triggers a four-point detour. -/
def rrLoop (obstacles : List Node) (outRev : List Point) (changed : Bool) :
    List Point → List Point × Bool
  | [] => (outRev.reverse, changed)
  | b :: rest =>
      match outRev with
      | [] => rrLoop obstacles [b] changed rest
      | a :: _ =>
          match obstacles.find? (fun n => segmentIntersectsRect a b n RR_PAD) with
          | some n =>
              rrLoop obstacles (b :: (detourPoints a b n).reverse ++ outRev) true rest
          | none => rrLoop obstacles (b :: outRev) changed rest

/-- The bounded pass loop of `rerouteAroundObstacles` (up to 6 passes,
breaking when a pass changes nothing; output of each pass is `dedup`ed). -/
def rrPasses (obstacles : List Node) : Nat → List Point → List Point
  | 0, result => result
  | k + 1, result =>
      match result with
      | [] => []
      | p :: rest =>
          let s := rrLoop obstacles [p] false rest
          let result' := dedup s.1
          if s.2 then rrPasses obstacles k result' else result'

/-- `rerouteAroundObstacles`: replace segments that cross an obstacle's
padded rectangle by detours, in up to 6 passes. -/
def rerouteAroundObstacles (pts : List Point) (obstacles : List Node) :
    List Point :=
  if pts.length < 2 ∨ obstacles.length = 0 then pts
  else rrPasses obstacles 6 pts

-- ── ensurePerpendicularEntry ─────────────────────────────────

/-- `ensurePerpendicularEntry`: guarantee the first/last segments leave and
enter the ports perpendicular to their sides, inserting a stub elbow of
length `PORT_EXTEND` where needed, then `dedup`. -/
def ensurePerpendicularEntry (pts : List Point) (fromPort toPort : Port) :
    List Point :=
  match pts with
  | [] => pts
  | [p] => [p]
  | p0 :: p1 :: rest =>
      let isHorizFrom := fromPort.dir = 0 ∨ fromPort.dir = 2
      let isHorizTo := toPort.dir = 0 ∨ toPort.dir = 2
      let all := p0 :: p1 :: rest
      let portT := all.getLastD p1
      let prevT := all.dropLast.getLastD p0
      let startIns : List Point :=
        if isHorizFrom ∧ p0.y ≠ p1.y then
          let sx := p0.x + DX fromPort.dir * PORT_EXTEND
          [⟨sx, p0.y⟩, ⟨sx, p1.y⟩]
        else if ¬(fromPort.dir = 0 ∨ fromPort.dir = 2) ∧ p0.x ≠ p1.x then
          let sy := p0.y + DY fromPort.dir * PORT_EXTEND
          [⟨p0.x, sy⟩, ⟨p1.x, sy⟩]
        else []
      let endIns : List Point :=
        if isHorizTo ∧ prevT.y ≠ portT.y then
          let sx := portT.x + DX toPort.dir * PORT_EXTEND
          [⟨sx, prevT.y⟩, ⟨sx, portT.y⟩]
        else if ¬(toPort.dir = 0 ∨ toPort.dir = 2) ∧ prevT.x ≠ portT.x then
          let sy := portT.y + DY toPort.dir * PORT_EXTEND
          [⟨prevT.x, sy⟩, ⟨portT.x, sy⟩]
        else []
      let mid := all.dropLast.drop 1
      dedup ([p0] ++ startIns ++ mid ++ endIns ++ [portT])

-- ── fallbackRoute and the post-processing pipeline ───────────

/-- `fallbackRoute`: the 1-2-bend polyline built directly between the two
ports' stub-extended points when the grid search fails, passed through
orthogonality enforcement, obstacle rerouting and perpendicular-entry
enforcement. -/
def fallbackRoute (fp tp : Port) (obstacles : List Node) : List Point :=
  let isHorizF := fp.dir = 0 ∨ fp.dir = 2
  let isHorizT := tp.dir = 0 ∨ tp.dir = 2
  let extF : Point := ⟨fp.x + DX fp.dir * PORT_EXTEND, fp.y + DY fp.dir * PORT_EXTEND⟩
  let extT : Point := ⟨tp.x + DX tp.dir * PORT_EXTEND, tp.y + DY tp.dir * PORT_EXTEND⟩
  let bends : List Point :=
    if isHorizF ∧ isHorizT then
      let midX := (extF.x + extT.x) / 2
      [⟨midX, extF.y⟩, ⟨midX, extT.y⟩]
    else if ¬isHorizF ∧ ¬isHorizT then
      let midY := (extF.y + extT.y) / 2
      [⟨extF.x, midY⟩, ⟨extT.x, midY⟩]
    else if isHorizF then [⟨extT.x, extF.y⟩]
    else [⟨extF.x, extT.y⟩]
  let pts := [(⟨fp.x, fp.y⟩ : Point), extF] ++ bends ++ [extT, ⟨tp.x, tp.y⟩]
  let cleaned := enforceOrthogonal (dedup pts)
  let rerouted := rerouteAroundObstacles cleaned obstacles
  ensurePerpendicularEntry rerouted fp tp

/-- The post-processing pipeline applied by `routeEdgeWithPorts` to the
stitched path: kink smoothing, orthogonality enforcement, obstacle
rerouting, perpendicular-entry enforcement (lines 1168-1170 of the
source). -/
def postProcess (pts : List Point) (fp tp : Port) (obstacles : List Node) :
    List Point :=
  let cleaned := enforceOrthogonal (smoothKinks (dedup pts))
  let rerouted := rerouteAroundObstacles cleaned obstacles
  ensurePerpendicularEntry rerouted fp tp

-- ── Port assignment ──────────────────────────────────────────

/-- One edge-endpoint in a `(node, side)` group of `computePortAssignments`. -/
structure EP where
  edgeId : String
  isFrom : Bool
  otherNode : Node
  pinned : Bool
  pinnedOffset : Rat
  side : Side
deriving DecidableEq, Repr, Inhabited

/-- Append an endpoint to its `(nodeId, side)` group, creating the group at
the end on first use (JS object insertion order). -/
def pushGroup (gs : List ((String × Side) × List EP)) (k : String × Side)
    (ep : EP) : List ((String × Side) × List EP) :=
  match gs with
  | [] => [(k, [ep])]
  | (k', l) :: rest =>
      if k' = k then (k', l ++ [ep]) :: rest else (k', l) :: pushGroup rest k ep

/-- The grouping loop of `computePortAssignments`: every edge with both
nodes present contributes one endpoint record per end; edges referencing a
missing node are skipped. -/
def buildGroups (nodes : List Node) (edges : List Edge) :
    List ((String × Side) × List EP) :=
  edges.foldl (fun gs edge =>
    match findNode nodes edge.fromId, findNode nodes edge.toId with
    | some fromNode, some toNode =>
        let fromSide := match edge.fromPort with
          | some p => p.side
          | none => autoSide fromNode toNode
        let toSide := match edge.toPort with
          | some p => p.side
          | none => autoSide toNode fromNode
        let fOff := match edge.fromPort with
          | some p => p.offset
          | none => 1 / 2
        let tOff := match edge.toPort with
          | some p => p.offset
          | none => 1 / 2
        let gs1 := pushGroup gs (edge.fromId, fromSide)
          ⟨edge.id, true, toNode, edge.fromPort.isSome, fOff, fromSide⟩
        pushGroup gs1 (edge.toId, toSide)
          ⟨edge.id, false, fromNode, edge.toPort.isSome, tOff, toSide⟩
    | _, _ => gs) []

/-- The perpendicular-axis center of the opposite endpoint, the sort key for
unpinned endpoints on a side. -/
def epSortKey (side : Side) (ep : EP) : Rat :=
  match side with
  | .top => ep.otherNode.x + ep.otherNode.width / 2
  | .bottom => ep.otherNode.x + ep.otherNode.width / 2
  | _ => ep.otherNode.y + ep.otherNode.height / 2

/-- Stable insertion: place `a` before the first element it compares
less-or-equal to. -/
def stableInsert {α : Type} (le : α → α → Bool) (a : α) : List α → List α
  | [] => [a]
  | b :: rest => if le a b then a :: b :: rest else b :: stableInsert le a rest

/-- A stable ascending sort (insertion sort).  JS `Array.prototype.sort`
with an `a - b` comparator is a stable sort by the same total preorder, and
any two stable sorts under one total preorder agree, so this computes the
source's sort result. -/
def stableSort {α : Type} (le : α → α → Bool) : List α → List α
  | [] => []
  | a :: rest => stableInsert le a (stableSort le rest)

/-- The stable ascending sort of unpinned endpoints by `epSortKey`. -/
def sortAuto (side : Side) (auto : List EP) : List EP :=
  stableSort (fun a b => epSortKey side a ≤ epSortKey side b) auto

/-- The evenly-spaced slot positions `(i+1)/(total+1)`. -/
def slotPositions (total : Nat) : List Rat :=
  (List.range total).map (fun (i : Nat) => ((i : Rat) + 1) / ((total : Rat) + 1))

/-- The nearest-unclaimed-slot search for one pinned endpoint: first index
not in `used` of strictly minimal offset distance (`d < bestDist` keeps the
earliest minimum; `bestIdx` starts at 0). -/
def pickBest (positions : List Rat) (used : List Nat) (off : Rat) : Nat :=
  (positions.enum.foldl (fun (st : Nat × Option Rat) ip =>
    if used.contains ip.1 then st
    else
      let d := |ip.2 - off|
      match st.2 with
      | none => (ip.1, some d)
      | some bd => if d < bd then (ip.1, some d) else st) (0, none)).1

/-- One pinned endpoint claiming its nearest unclaimed slot (`usedIdxs.add`
is a set insertion: adding a present index changes nothing). -/
def claimStep (positions : List Rat) (used : List Nat) (ep : EP) : List Nat :=
  let b := pickBest positions used ep.pinnedOffset
  if used.contains b then used else b :: used

/-- The slot indices claimed by the pinned endpoints, in claiming order. -/
def claimUsed (positions : List Rat) (pinned : List EP) : List Nat :=
  pinned.foldl (claimStep positions) []

/-- The slot indices left for unpinned endpoints, ascending. -/
def availIdxs (total : Nat) (used : List Nat) : List Nat :=
  (List.range total).filter (fun i => !used.contains i)

/-- The offsets handed to the sorted unpinned endpoints: the `i`-th gets the
`i`-th remaining slot (with the source's `(i+1)/(autoLen+1)` overflow
formula when the remaining slots run out). -/
def autoOffsets (positions : List Rat) (avail : List Nat) (autoLen : Nat) :
    List Rat :=
  (List.range autoLen).map (fun (i : Nat) =>
    if i < avail.length then positions.getD (avail.getD i 0) 0
    else ((i : Rat) + 1) / ((autoLen : Rat) + 1))

/-- Build the `Port` record `{side, offset, dir, x, y}`. -/
def mkPort (node : Node) (side : Side) (offset : Rat) : Port :=
  let pos := portToWorld node side offset
  ⟨side, offset, SIDE_TO_DIR side, pos.x, pos.y⟩

/-- The `{from, to}` pair of resolved ports for one edge (JS field `from`
is a Lean keyword, hence `fromP`/`toP`). -/
structure PortPair where
  fromP : Option Port := none
  toP : Option Port := none
deriving DecidableEq, Repr, Inhabited

/-- `assignments[edgeId].from/to = port` on the association list (creating
the entry when absent). -/
def setAssign (asg : List (String × PortPair)) (id : String) (isFrom : Bool)
    (p : Port) : List (String × PortPair) :=
  match asg with
  | [] => [(id, if isFrom then ⟨some p, none⟩ else ⟨none, some p⟩)]
  | (k, pr) :: rest =>
      if k = id then
        (k, if isFrom then { pr with fromP := some p }
            else { pr with toP := some p }) :: rest
      else (k, pr) :: setAssign rest id isFrom p

/-- Processing of one `(node, side)` group: pinned endpoints keep their
exact offsets (claiming nearest slots for bookkeeping only), sorted unpinned
endpoints fill the remaining slots in order.  The slot-claiming fold of the
source is split into `claimUsed` (the claimed-index set) and the assignment
fold; the claimed indices never depend on the assignment map, so the
interleaved source loop computes the same values. -/
def processGroup (nodes : List Node) (asg : List (String × PortPair))
    (g : (String × Side) × List EP) : List (String × PortPair) :=
  match findNode nodes g.1.1 with
  | none => asg
  | some node =>
      let side := g.1.2
      let eps := g.2
      let pinned := eps.filter (fun e => e.pinned)
      let auto := eps.filter (fun e => !e.pinned)
      let sortedAuto := sortAuto side auto
      let positions := slotPositions eps.length
      let used := claimUsed positions pinned
      let asg1 := pinned.foldl (fun a ep =>
        setAssign a ep.edgeId ep.isFrom (mkPort node side ep.pinnedOffset)) asg
      let offs := autoOffsets positions (availIdxs positions.length used)
        sortedAuto.length
      (sortedAuto.zip offs).foldl (fun a po =>
        setAssign a po.1.edgeId po.1.isFrom (mkPort node side po.2)) asg1

/-- `computePortAssignments`: map edge id to its resolved `{from, to}`
ports. -/
def computePortAssignments (nodes : List Node) (edges : List Edge) :
    List (String × PortPair) :=
  (buildGroups nodes edges).foldl (processGroup nodes) []

-- ── Grid ─────────────────────────────────────────────────────

/-- The derived grid geometry shared by `buildGrid` and `routeAllEdges`. -/
structure GridInfo where
  gw : Int
  gh : Int
  ox : Rat
  oy : Rat
deriving DecidableEq, Repr, Inhabited

/-- Grid width/height and origin from a bounding box. -/
def mkGridInfo (bbox : BBox) : GridInfo :=
  ⟨((bbox.maxX - bbox.minX) / CELL).ceil + 1,
   ((bbox.maxY - bbox.minY) / CELL).ceil + 1, bbox.minX, bbox.minY⟩

/-- The occupancy test of the grid `buildGrid` fills: cell `(gx, gy)` is
marked iff some obstacle's padded rectangle, rasterized to the clamped cell
box the marking loops iterate over, contains it. -/
def occCell (obstacles : List Node) (gi : GridInfo) (gx gy : Int) : Bool :=
  obstacles.any fun n =>
    let x0 := ((n.x - NODE_PAD - gi.ox) / CELL).floor
    let y0 := ((n.y - NODE_PAD - gi.oy) / CELL).floor
    let x1 := ((n.x + n.width + NODE_PAD - gi.ox) / CELL).ceil
    let y1 := ((n.y + n.height + NODE_PAD - gi.oy) / CELL).ceil
    decide (max 0 x0 ≤ gx ∧ gx ≤ min (gi.gw - 1) x1 ∧
            max 0 y0 ≤ gy ∧ gy ≤ min (gi.gh - 1) y1)

-- ── MinHeap ──────────────────────────────────────────────────

/-- A heap entry `{gx, gy, dir, g, f}`. -/
structure HNode where
  gx : Int
  gy : Int
  dir : Nat
  g : Nat
  f : Nat
deriving DecidableEq, Repr, Inhabited

/-- `this.d[i]` of the heap array. -/
def hGet (d : List HNode) (i : Nat) : HNode := d.getD i default

/-- Swap two heap slots. -/
def hSwap (d : List HNode) (i j : Nat) : List HNode :=
  let vi := hGet d i
  let vj := hGet d j
  (d.set i vj).set j vi

/-- `_up` of `MinHeap`, with a fuel that bounds the loop; the index strictly
decreases each iteration, so a fuel of the initial index plus one is always
enough and the fueled loop equals the source loop. -/
def hUpFuel : Nat → List HNode → Nat → List HNode
  | 0, d, _ => d
  | fuel + 1, d, i =>
      if i = 0 then d
      else
        let p := (i - 1) / 2
        if (hGet d p).f ≤ (hGet d i).f then d
        else hUpFuel fuel (hSwap d p i) p

/-- `_down` of `MinHeap`, fueled likewise (the index strictly increases and
stays below the length). -/
def hDownFuel : Nat → List HNode → Nat → List HNode
  | 0, d, _ => d
  | fuel + 1, d, i =>
      let n := d.length
      let l := 2 * i + 1
      let r := 2 * i + 2
      let s1 := if l < n ∧ (hGet d l).f < (hGet d i).f then l else i
      let s2 := if r < n ∧ (hGet d r).f < (hGet d s1).f then r else s1
      if s2 = i then d else hDownFuel fuel (hSwap d i s2) s2

/-- `push` of `MinHeap`. -/
def hPush (d : List HNode) (v : HNode) : List HNode :=
  let d' := d ++ [v]
  hUpFuel d'.length d' d.length

/-- `pop` of `MinHeap`: return the root, move the last entry to the root and
sift down. -/
def hPop (d : List HNode) : HNode × List HNode :=
  let top := hGet d 0
  let d' := d.dropLast
  if d'.length = 0 then (top, [])
  else
    let lastv := hGet d (d.length - 1)
    (top, hDownFuel d'.length (d'.set 0 lastv) 0)

-- ── A* pathfinding ───────────────────────────────────────────

/-- `stateKey(x, y, d) = (x * gh + y) * 4 + d`. -/
def stateKey (gh : Int) (x y : Int) (d : Nat) : Int :=
  (x * gh + y) * 4 + (d : Int)

/-- Manhattan distance between grid cells. -/
def manhattanN (x1 y1 x2 y2 : Int) : Nat :=
  (x2 - x1).natAbs + (y2 - y1).natAbs

/-- The mutable search state of `astar`: the open heap, and the `gScore` /
`cameFrom` maps as association lists where an update prepends (lookup sees
the newest binding, as for a JS `Map.set`). -/
structure AStarState where
  heap : List HNode
  gScore : List (Int × Nat)
  cameFrom : List (Int × Int)

/-- Relaxation of one neighbor (one iteration of the `for d in 0..3` loop of
`astar`). -/
def expandNeighbor (blocked : Int → Int → Bool) (usage : List (Int × Int))
    (gw gh ex ey : Int) (cur : HNode) (ck : Int) (st : AStarState) (d : Nat) :
    AStarState :=
  let nx := cur.gx + DXI d
  let ny := cur.gy + DYI d
  if nx < 0 ∨ nx ≥ gw ∨ ny < 0 ∨ ny ≥ gh then st
  else if blocked nx ny then st
  else
    let turn := if d ≠ cur.dir then TURN_COST else 0
    let cross := if usage.contains (nx, ny) then CROSS_COST else 0
    let ng := cur.g + 1 + turn + cross
    let nk := stateKey gh nx ny d
    let better : Bool := match st.gScore.lookup nk with
      | some g0 => decide (ng < g0)
      | none => true
    if better then
      ⟨hPush st.heap ⟨nx, ny, d, ng, ng + manhattanN nx ny ex ey⟩,
       (nk, ng) :: st.gScore, (nk, ck) :: st.cameFrom⟩
    else st

/-- The fuel of the `astar` main loop and of path reconstruction.  The
source loops are unbounded but terminating; every concrete evaluation in
this file needs well under this bound, and exhaustion returns the same
`none` as search failure. -/
def ASTAR_FUEL : Nat := 10000

/-- Path reconstruction along `cameFrom` links, decoding each state key;
produced goal-first like the source's push loop (the caller reverses). -/
def reconstructPath (gh : Int) (cameFrom : List (Int × Int)) :
    Nat → Int → List (Int × Int)
  | 0, _ => []
  | fuel + 1, k =>
      let d := k % 4
      let rem := (k - d) / 4
      let y := rem % gh
      let x := (rem - y) / gh
      (x, y) :: (match cameFrom.lookup k with
        | some k' => reconstructPath gh cameFrom fuel k'
        | none => [])

/-- The `while (heap.size > 0)` loop of `astar`. -/
def astarLoop (blocked : Int → Int → Bool) (usage : List (Int × Int))
    (gw gh ex ey : Int) : Nat → AStarState → Option (List (Int × Int))
  | 0, _ => none
  | fuel + 1, st =>
      match st.heap with
      | [] => none
      | _ :: _ =>
          let pr := hPop st.heap
          let cur := pr.1
          let heap' := pr.2
          let ck := stateKey gh cur.gx cur.gy cur.dir
          let stale : Bool := match st.gScore.lookup ck with
            | some g0 => decide (g0 < cur.g)
            | none => false
          if stale then
            astarLoop blocked usage gw gh ex ey fuel ⟨heap', st.gScore, st.cameFrom⟩
          else if cur.gx = ex ∧ cur.gy = ey then
            some ((reconstructPath gh st.cameFrom ASTAR_FUEL ck).reverse)
          else
            astarLoop blocked usage gw gh ex ey fuel
              ([0, 1, 2, 3].foldl (expandNeighbor blocked usage gw gh ex ey cur ck)
                ⟨heap', st.gScore, st.cameFrom⟩)

/-- `astar`: search from the start cell and direction to the goal cell. -/
def astar (blocked : Int → Int → Bool) (usage : List (Int × Int))
    (gw gh sx sy : Int) (sDir : Nat) (ex ey : Int) :
    Option (List (Int × Int)) :=
  let k0 := stateKey gh sx sy sDir
  astarLoop blocked usage gw gh ex ey ASTAR_FUEL
    ⟨[⟨sx, sy, sDir, 0, manhattanN sx sy ex ey⟩], [(k0, 0)], []⟩

-- ── routeEdgeWithPorts ───────────────────────────────────────

/-- `simplifyGridPath`: grid cells to world coordinates, collapsing
collinear runs (the collapsing loop is the same as `dedup`'s second
stage). -/
def simplifyGridPath (gridPath : List (Int × Int)) (ox oy : Rat) :
    List Point :=
  let pts := gridPath.map (fun g =>
    (⟨ox + (g.1 : Rat) * CELL, oy + (g.2 : Rat) * CELL⟩ : Point))
  match pts with
  | [] => []
  | [p] => [p]
  | [p, q] => [p, q]
  | p :: rest => p :: dedup2 p rest

/-- The start-endpoint alignment of `routeEdgeWithPorts` (first `if` chain
on `simplified`). -/
def alignStartFix (isHorizFrom : Bool) (fp : Port) : List Point → List Point
  | a :: b :: rest =>
      if isHorizFrom ∧ a.x = b.x then ⟨a.x, fp.y⟩ :: b :: rest
      else if ¬(isHorizFrom = true) ∧ a.y = b.y then ⟨fp.x, a.y⟩ :: b :: rest
      else if isHorizFrom ∧ a.y = b.y then ⟨a.x, fp.y⟩ :: ⟨b.x, fp.y⟩ :: rest
      else if ¬(isHorizFrom = true) ∧ a.x = b.x then ⟨fp.x, a.y⟩ :: ⟨fp.x, b.y⟩ :: rest
      else a :: b :: rest
  | l => l

/-- The end-endpoint alignment of `routeEdgeWithPorts` (second `if` chain on
`simplified`), phrased on the reversed list so the last two points are the
head. -/
def alignEndFix (isHorizTo : Bool) (tp : Port) (l : List Point) : List Point :=
  match l.reverse with
  | a :: b :: rest =>
      (if isHorizTo ∧ a.x = b.x then ⟨a.x, tp.y⟩ :: b :: rest
       else if ¬(isHorizTo = true) ∧ a.y = b.y then ⟨tp.x, a.y⟩ :: b :: rest
       else if isHorizTo ∧ a.y = b.y then ⟨a.x, tp.y⟩ :: ⟨b.x, tp.y⟩ :: rest
       else if ¬(isHorizTo = true) ∧ a.x = b.x then ⟨tp.x, a.y⟩ :: ⟨tp.x, b.y⟩ :: rest
       else a :: b :: rest).reverse
  | _ => l

/-- The stitch of `routeEdgeWithPorts` (port, optional alignment elbow,
grid path, optional alignment elbow, port) followed by the post-processing
pipeline. -/
def stitchAndFinish (fromPort toPort : Port) (obstacles : List Node)
    (s : List Point) : List Point :=
  match s with
  | [] => fallbackRoute fromPort toPort obstacles
  | f :: _ =>
      let isHorizFrom := fromPort.dir = 0 ∨ fromPort.dir = 2
      let isHorizTo := toPort.dir = 0 ∨ toPort.dir = 2
      let lst := s.getLastD f
      let startAl : List Point :=
        if isHorizFrom then
          (if f.y ≠ fromPort.y then [⟨f.x, fromPort.y⟩] else [])
        else
          (if f.x ≠ fromPort.x then [⟨fromPort.x, f.y⟩] else [])
      let endAl : List Point :=
        if isHorizTo then
          (if lst.y ≠ toPort.y then [⟨lst.x, toPort.y⟩] else [])
        else
          (if lst.x ≠ toPort.x then [⟨toPort.x, lst.y⟩] else [])
      let result := [(⟨fromPort.x, fromPort.y⟩ : Point)] ++ startAl ++ s ++
        endAl ++ [⟨toPort.x, toPort.y⟩]
      postProcess result fromPort toPort obstacles

/-- `routeEdgeWithPorts`: build the per-edge grid (with the two stub cells
forced passable), search, align, stitch and post-process; fall back to
`fallbackRoute` when the search fails. -/
def routeEdgeWithPorts (fromPort toPort : Port) (obstacles : List Node)
    (bbox : BBox) (usage : List (Int × Int)) : List Point :=
  let gi := mkGridInfo bbox
  let extFx := fromPort.x + DX fromPort.dir * PORT_EXTEND
  let extFy := fromPort.y + DY fromPort.dir * PORT_EXTEND
  let extTx := toPort.x + DX toPort.dir * PORT_EXTEND
  let extTy := toPort.y + DY toPort.dir * PORT_EXTEND
  let csgx := max 0 (min (gi.gw - 1) (jsRound ((extFx - gi.ox) / CELL)))
  let csgy := max 0 (min (gi.gh - 1) (jsRound ((extFy - gi.oy) / CELL)))
  let cegx := max 0 (min (gi.gw - 1) (jsRound ((extTx - gi.ox) / CELL)))
  let cegy := max 0 (min (gi.gh - 1) (jsRound ((extTy - gi.oy) / CELL)))
  let blocked := fun gx gy =>
    decide (¬((gx = csgx ∧ gy = csgy) ∨ (gx = cegx ∧ gy = cegy))) &&
      occCell obstacles gi gx gy
  match astar blocked usage gi.gw gi.gh csgx csgy fromPort.dir cegx cegy with
  | none => fallbackRoute fromPort toPort obstacles
  | some gridPath =>
      let isHorizFrom := fromPort.dir = 0 ∨ fromPort.dir = 2
      match simplifyGridPath gridPath gi.ox gi.oy with
      | [] => fallbackRoute fromPort toPort obstacles
      | [s0] =>
          let s0' : Point :=
            if isHorizFrom then ⟨s0.x, fromPort.y⟩ else ⟨fromPort.x, s0.y⟩
          stitchAndFinish fromPort toPort obstacles [s0']
      | s0 :: s1 :: srest =>
          stitchAndFinish fromPort toPort obstacles
            (alignEndFix (toPort.dir = 0 ∨ toPort.dir = 2) toPort
              (alignStartFix isHorizFrom fromPort (s0 :: s1 :: srest)))

-- ── routeAllEdges ────────────────────────────────────────────

/-- `routes[edgeId] = path` for the JS output object. -/
def upsertRoute (routes : List (String × List Point)) (id : String)
    (path : List Point) : List (String × List Point) :=
  match routes with
  | [] => [(id, path)]
  | (k, v) :: rest =>
      if k = id then (k, path) :: rest else (k, v) :: upsertRoute rest id path

/-- The usage-grid cells touched by one route segment (the marking loop of
`routeAllEdges`, with its in-bounds guards). -/
def segCells (gi : GridInfo) (a b : Point) : List (Int × Int) :=
  let ax := jsRound ((a.x - gi.ox) / CELL)
  let ay := jsRound ((a.y - gi.oy) / CELL)
  let bx := jsRound ((b.x - gi.ox) / CELL)
  let byv := jsRound ((b.y - gi.oy) / CELL)
  if ax = bx then
    (List.range ((max ay byv - min ay byv).toNat + 1)).filterMap (fun (k : Nat) =>
      let yv := min ay byv + (k : Int)
      if 0 ≤ ax ∧ ax < gi.gw ∧ 0 ≤ yv ∧ yv < gi.gh then some (ax, yv) else none)
  else
    (List.range ((max ax bx - min ax bx).toNat + 1)).filterMap (fun (k : Nat) =>
      let xv := min ax bx + (k : Int)
      if 0 ≤ xv ∧ xv < gi.gw ∧ 0 ≤ ay ∧ ay < gi.gh then some (xv, ay) else none)

/-- Mark every cell of every segment of a finished route into the shared
usage grid. -/
def markUsage (gi : GridInfo) (usage : List (Int × Int)) (path : List Point) :
    List (Int × Int) :=
  usage ++ (path.zip path.tail).flatMap (fun pr => segCells gi pr.1 pr.2)

/-- The Manhattan distance between an edge's resolved ports, the sort key
of the shortest-first loop (`0` when the assignment is incomplete). -/
def edgeDist (assignments : List (String × PortPair)) (e : Edge) : Rat :=
  match assignments.lookup e.id with
  | some pr =>
      match pr.fromP, pr.toP with
      | some f, some t => |f.x - t.x| + |f.y - t.y|
      | _, _ => 0
  | none => 0

/-- The body of the per-edge loop of `routeAllEdges`: skip edges with an
incomplete assignment or a missing node, otherwise route against the current
usage grid, record the route, and (when not dragging) mark the route's cells
into the usage grid. -/
def raeStep (nodes : List Node) (assignments : List (String × PortPair))
    (bbox : BBox) (gi : GridInfo) (isDragging : Bool)
    (st : List (String × List Point) × List (Int × Int)) (ed : Edge × Rat) :
    List (String × List Point) × List (Int × Int) :=
  let e := ed.1
  match assignments.lookup e.id with
  | some pr =>
      match pr.fromP, pr.toP with
      | some f, some t =>
          match findNode nodes e.fromId, findNode nodes e.toId with
          | some _, some _ =>
              let obstacles := nodes.filter (fun n =>
                n.id ≠ e.fromId ∧ n.id ≠ e.toId)
              let path := routeEdgeWithPorts f t obstacles bbox st.2
              (upsertRoute st.1 e.id path,
               if isDragging then st.2 else markUsage gi st.2 path)
          | _, _ => st
      | _, _ => st
  | none => st

/-- `routeAllEdges`: resolve ports, route every edge shortest-first against
the shared usage grid, and (unless dragging) mark each finished route into
the usage grid for the later edges' crossing penalty. -/
def routeAllEdges (nodes : List Node) (edges : List Edge)
    (isDragging : Bool) : List (String × List Point) :=
  if nodes.isEmpty ∨ edges.isEmpty then []
  else
    let assignments := computePortAssignments nodes edges
    let bbox := computeBBox nodes
    let gi := mkGridInfo bbox
    let withDist := edges.map (fun e => (e, edgeDist assignments e))
    let sortedE := stableSort (fun a b => a.2 ≤ b.2) withDist
    (sortedE.foldl (raeStep nodes assignments bbox gi isDragging) ([], [])).1

-- ── nearestPerimeterPoint ────────────────────────────────────

/-- The record returned by `nearestPerimeterPoint`. -/
structure PerimPoint where
  side : Side
  x : Rat
  y : Rat
  offset : Rat
deriving DecidableEq, Repr, Inhabited

/-- The four per-side clamped projections of the query point, in the
source's candidate order (top, right, bottom, left), each with a 0.5
default offset when its side length is not positive. -/
def perimCandidates (node : Node) (px py : Rat) : List PerimPoint :=
  let tx := max node.x (min (node.x + node.width) px)
  let ry := max node.y (min (node.y + node.height) py)
  let bx := max node.x (min (node.x + node.width) px)
  let ly := max node.y (min (node.y + node.height) py)
  [⟨.top, tx, node.y,
    if node.width > 0 then (tx - node.x) / node.width else 1 / 2⟩,
   ⟨.right, node.x + node.width, ry,
    if node.height > 0 then (ry - node.y) / node.height else 1 / 2⟩,
   ⟨.bottom, bx, node.y + node.height,
    if node.width > 0 then (bx - node.x) / node.width else 1 / 2⟩,
   ⟨.left, node.x, ly,
    if node.height > 0 then (ly - node.y) / node.height else 1 / 2⟩]

/-- Squared distance from the query point to a candidate. -/
def sqDist (px py : Rat) (c : PerimPoint) : Rat :=
  (px - c.x) ^ 2 + (py - c.y) ^ 2

/-- The `d < bestDist` fold over candidates (strict improvement keeps the
earliest minimum; the first candidate always beats the initial infinite
distance). -/
def pickNearest (px py : Rat) : List PerimPoint → PerimPoint → PerimPoint
  | [], best => best
  | c :: rest, best =>
      pickNearest px py rest
        (if sqDist px py c < sqDist px py best then c else best)

/-- `nearestPerimeterPoint`: nearest of the four clamped per-side
projections, with the offset clamped to `[0.1, 0.9]` afterwards (the
returned `x`/`y` are not re-adjusted). -/
def nearestPerimeterPoint (node : Node) (px py : Rat) : PerimPoint :=
  match perimCandidates node px py with
  | [] => default
  | c :: rest =>
      let best := pickNearest px py rest c
      { best with offset := max (1 / 10) (min (9 / 10) best.offset) }

-- ══ Checkers used by the theorems ═══════════════════════════

/-- Every pair of consecutive points shares an `x` or a `y` (the route is a
strictly orthogonal polyline). -/
def OrthogonalB : List Point → Bool
  | p :: q :: rest =>
      (decide (p.x = q.x) || decide (p.y = q.y)) && OrthogonalB (q :: rest)
  | _ => true

/-- Some segment of the polyline crosses the `pad`-padded rectangle of some
listed node. -/
def routeHitsB (obstacles : List Node) (pad : Rat) : List Point → Bool
  | a :: b :: rest =>
      (obstacles.any fun n => segmentIntersectsRect a b n pad) ||
        routeHitsB obstacles pad (b :: rest)
  | _ => false

/-- No two consecutive points are equal. -/
def NoAdjDupB : List Point → Bool
  | p :: q :: rest => (decide (p ≠ q)) && NoAdjDupB (q :: rest)
  | _ => true

/-- No three consecutive points share one coordinate. -/
def TripleFreeB : List Point → Bool
  | a :: b :: c :: rest =>
      (decide (¬(a.x = b.x ∧ b.x = c.x)) && decide (¬(a.y = b.y ∧ b.y = c.y))) &&
        TripleFreeB (b :: c :: rest)
  | _ => true

/-- Every segment is at least `MIN_SEG` long (Manhattan length). -/
def MinSegB : List Point → Bool
  | p :: q :: rest =>
      (decide (MIN_SEG ≤ |q.x - p.x| + |q.y - p.y|)) && MinSegB (q :: rest)
  | _ => true

/-- The first and last segments already satisfy the perpendicular-entry
conditions of `ensurePerpendicularEntry` (no stub is inserted). -/
def PerpCleanB (fp tp : Port) (pts : List Point) : Bool :=
  match pts with
  | p0 :: p1 :: rest =>
      let all := p0 :: p1 :: rest
      let portT := all.getLastD p1
      let prevT := all.dropLast.getLastD p0
      (if fp.dir = 0 ∨ fp.dir = 2 then decide (p0.y = p1.y)
       else decide (p0.x = p1.x)) &&
      (if tp.dir = 0 ∨ tp.dir = 2 then decide (prevT.y = portT.y)
       else decide (prevT.x = portT.x))
  | _ => true

-- ══ Concrete inputs for the claims ══════════════════════════

/-- Node A of the C4 scenario. -/
def c4A : Node := ⟨"A", 100, 100, 140, 50⟩
/-- Node B of the C4 scenario. -/
def c4B : Node := ⟨"B", 400, 100, 140, 50⟩
/-- The single unpinned edge of the C4 scenario. -/
def c4E : Edge := ⟨"e", "A", "B", none, none⟩

/-- Source node of the orthogonality counterexample. -/
def c2A : Node := ⟨"A", 0, 0, 100, 50⟩
/-- Target node of the orthogonality counterexample. -/
def c2B : Node := ⟨"B", 100, 200, 100, 50⟩
/-- Blocking node of the orthogonality counterexample: it swallows the
source port's stub cell, so the grid search dies immediately and the
fallback route runs. -/
def c2C : Node := ⟨"C", 110, -100, 300, 400⟩
/-- The pinned edge of the orthogonality counterexample: both ports share
`x = 100` with opposite horizontal exit directions. -/
def c2E : Edge := ⟨"e", "A", "B", some ⟨.right, 1 / 2⟩, some ⟨.left, 1 / 2⟩⟩
/-- The route the router returns for the orthogonality counterexample. -/
def c2Route : List Point :=
  [⟨100, 25⟩, ⟨128, 25⟩, ⟨128, 225⟩, ⟨72, 25⟩, ⟨72, 225⟩, ⟨100, 225⟩]

/-- Source node of the obstacle-intersection counterexample. -/
def c3A : Node := ⟨"A", 0, 0, 100, 50⟩
/-- Target node of the obstacle-intersection counterexample. -/
def c3B : Node := ⟨"B", 100, 200, 100, 50⟩
/-- Obstacle of the obstacle-intersection counterexample (not an endpoint
of the edge). -/
def c3C : Node := ⟨"C", 115, -100, 300, 400⟩
/-- The pinned edge of the obstacle-intersection counterexample. -/
def c3E : Edge := ⟨"e", "A", "B", some ⟨.right, 1 / 2⟩, some ⟨.left, 1 / 2⟩⟩
/-- The route the router returns for the obstacle-intersection
counterexample. -/
def c3Route : List Point :=
  [⟨100, 25⟩, ⟨128, 25⟩, ⟨128, 225⟩, ⟨72, 25⟩, ⟨72, 225⟩, ⟨100, 225⟩]

/-- Source port of the idempotence counterexample. -/
def c5fp : Port := ⟨.right, 1 / 2, 0, 0, 0⟩
/-- Target port of the idempotence counterexample. -/
def c5tp : Port := ⟨.left, 1 / 2, 2, 0, 50⟩
/-- Raw input of the idempotence counterexample: a straight vertical
two-point path between two horizontally-exiting ports. -/
def c5x : List Point := [⟨0, 0⟩, ⟨0, 50⟩]

-- ══ C4 ══════════════════════════════════════════════════════

/-- C4: with node A at (100,100) sized 140 by 50, node B at (400,100) sized
140 by 50, a single edge from A to B and no pinned ports, `routeAllEdges`
returns for that edge exactly the 2-point route from A's right-center port
(240,125) to B's left-center port (400,125) — constant `y`, increasing
`x`. -/
theorem c4_unobstructed_horizontal_route :
    routeAllEdges [c4A, c4B] [c4E] false =
      [("e", [⟨240, 125⟩, ⟨400, 125⟩])] := by
  decide

-- ══ C2 (code bug: a returned route can contain a diagonal) ══

/-- C2 failing input: the router returns a route containing the diagonal
segment (128,225)-(72,25), so not every consecutive point pair of every
returned route is axis-aligned.  The grid search dies inside obstacle C's
padding, the fallback collapses to a vertical two-point path between two
opposite horizontally-exiting ports, and `ensurePerpendicularEntry` then
splices its two stub pairs together without an elbow. -/
theorem c2_route_with_diagonal_segment :
    (routeAllEdges [c2A, c2B, c2C] [c2E] false).lookup "e" = some c2Route ∧
      OrthogonalB c2Route = false := by
  constructor
  · decide
  · decide

-- ══ C3 (corrected: final routes can cross padded obstacles) ═

/-- C3 counterexample: a final returned route whose segments cross the
padded rectangle of obstacle C (a node that is not an endpoint of the
edge), under both the rerouting test pad (4) and the node pad (18). -/
theorem c3_route_intersects_obstacle :
    (routeAllEdges [c3A, c3B, c3C] [c3E] false).lookup "e" = some c3Route ∧
      c3C.id ≠ c3E.fromId ∧ c3C.id ≠ c3E.toId ∧
      routeHitsB [c3C] RR_PAD c3Route = true ∧
      routeHitsB [c3C] NODE_PAD c3Route = true := by
  refine ⟨by decide, by decide, by decide, by decide, by decide⟩

-- ══ C5 (corrected: the pipeline is not idempotent) ══════════

/-- C5 counterexample: applying the post-processing pipeline a second time
to output it has already produced changes that output (the stub pairs the
first application's perpendicular-entry enforcement inserted are torn up by
the second application). -/
theorem c5_pipeline_not_idempotent :
    postProcess (postProcess c5x c5fp c5tp []) c5fp c5tp [] ≠
      postProcess c5x c5fp c5tp [] := by
  decide

-- ══ Identity lemmas for the pipeline stages on clean input ══

theorem dedup1_id (l : List Point) (prev : Point)
    (h : NoAdjDupB (prev :: l) = true) : dedup1 prev l = l := by
  induction l generalizing prev with
  | nil => rfl
  | cons c rest ih =>
      simp only [NoAdjDupB, Bool.and_eq_true, decide_eq_true_eq] at h
      have hne : ¬(c = prev) := fun hc => h.1 hc.symm
      simp only [dedup1, if_neg hne]
      exact congrArg (c :: ·) (ih c h.2)

theorem dedup2_id (l : List Point) (prev : Point)
    (h : TripleFreeB (prev :: l) = true) : dedup2 prev l = l := by
  induction l generalizing prev with
  | nil => rfl
  | cons c rest ih =>
      cases rest with
      | nil => rfl
      | cons n rest' =>
          simp only [TripleFreeB, Bool.and_eq_true, decide_eq_true_eq] at h
          simp only [dedup2]
          rw [if_neg]
          · exact congrArg (c :: ·) (ih c h.2)
          · rintro (hx | hy)
            · exact h.1.1 hx
            · exact h.1.2 hy

theorem dedup_id (pts : List Point) (h1 : NoAdjDupB pts = true)
    (h2 : TripleFreeB pts = true) : dedup pts = pts := by
  match pts with
  | [] => rfl
  | [p] => rfl
  | p :: q :: rest =>
      have hd1 : dedup1 p (q :: rest) = q :: rest := dedup1_id _ _ h1
      simp only [dedup, hd1]
      cases rest with
      | nil => rfl
      | cons r rest' => exact congrArg (p :: ·) (dedup2_id _ _ h2)

theorem skLoop_id (rest : List Point) (prev : Point) (outTail : List Point)
    (ch : Bool) (h : MinSegB (prev :: rest) = true) :
    skLoop (prev :: outTail) ch rest = ((prev :: outTail).reverse ++ rest, ch) := by
  induction rest generalizing prev outTail with
  | nil => simp [skLoop]
  | cons cur rest' ih =>
      simp only [MinSegB, Bool.and_eq_true, decide_eq_true_eq] at h
      have hlong : ¬(0 < |cur.x - prev.x| + |cur.y - prev.y| ∧
          |cur.x - prev.x| + |cur.y - prev.y| < MIN_SEG) := by
        rintro ⟨-, hlt⟩
        exact absurd h.1 (not_le_of_lt hlt)
      have hrec := ih cur (prev :: outTail) (by
        simpa [MinSegB, Bool.and_eq_true] using h.2)
      cases outTail with
      | nil =>
          simp only [skLoop]
          rw [hrec]
          simp
      | cons pp tl =>
          simp only [skLoop, if_neg hlong]
          rw [hrec]
          simp

theorem smoothKinks_id (pts : List Point) (hm : MinSegB pts = true)
    (h1 : NoAdjDupB pts = true) (h2 : TripleFreeB pts = true) :
    smoothKinks pts = pts := by
  by_cases hl : pts.length < 4
  · simp [smoothKinks, hl]
  · match pts, hm, h1, h2 with
    | p :: rest, hm, h1, h2 =>
        simp only [smoothKinks, if_neg hl, skPasses]
        rw [skLoop_id rest p [] false hm]
        simpa using dedup_id _ h1 h2

theorem eoLoop_id (rest : List Point) (prev : Point) (outTail : List Point)
    (h : OrthogonalB (prev :: rest) = true) :
    eoLoop (prev :: outTail) rest = (prev :: outTail).reverse ++ rest := by
  induction rest generalizing prev outTail with
  | nil => simp [eoLoop]
  | cons cur rest' ih =>
      simp only [OrthogonalB, Bool.and_eq_true, Bool.or_eq_true,
        decide_eq_true_eq] at h
      have hax : ¬(prev.x ≠ cur.x ∧ prev.y ≠ cur.y) := by
        rintro ⟨hx, hy⟩
        rcases h.1 with h' | h'
        · exact hx h'
        · exact hy h'
      have hrec := ih cur (prev :: outTail) (by
        simpa [OrthogonalB, Bool.and_eq_true] using h.2)
      simp only [eoLoop, if_neg hax]
      rw [hrec]
      simp

theorem enforceOrthogonal_id (pts : List Point)
    (ho : OrthogonalB pts = true) (h1 : NoAdjDupB pts = true)
    (h2 : TripleFreeB pts = true) : enforceOrthogonal pts = pts := by
  match pts with
  | [] => rfl
  | [p] => rfl
  | p :: q :: rest =>
      simp only [enforceOrthogonal]
      rw [eoLoop_id _ _ _ ho]
      simpa using dedup_id _ h1 h2

theorem rrLoop_changed_true (obstacles : List Node) (rest : List Point)
    (outRev : List Point) :
    (rrLoop obstacles outRev true rest).2 = true := by
  induction rest generalizing outRev with
  | nil => rfl
  | cons b rest' ih =>
      cases outRev with
      | nil => simpa [rrLoop] using ih [b]
      | cons a tl =>
          simp only [rrLoop]
          cases hf : List.find? (fun n => segmentIntersectsRect a b n RR_PAD)
              obstacles with
          | none => exact ih (b :: a :: tl)
          | some n => exact ih _

theorem rrLoop_id (obstacles : List Node) (rest : List Point) (a : Point)
    (tl : List Point) (ch : Bool)
    (h : routeHitsB obstacles RR_PAD (a :: rest) = false) :
    rrLoop obstacles (a :: tl) ch rest = ((a :: tl).reverse ++ rest, ch) := by
  induction rest generalizing a tl with
  | nil => simp [rrLoop]
  | cons b rest' ih =>
      simp only [routeHitsB, Bool.or_eq_false_iff] at h
      have hfind : List.find? (fun n => segmentIntersectsRect a b n RR_PAD)
          obstacles = none := by
        rw [List.find?_eq_none]
        intro n hn
        have := List.any_eq_false.mp h.1 n hn
        simpa using this
      simp only [rrLoop, hfind]
      have hrec := ih b (a :: tl) (by
        simpa [routeHitsB] using h.2)
      rw [hrec]
      simp

theorem rerouteAroundObstacles_id (pts : List Point) (obstacles : List Node)
    (hh : routeHitsB obstacles RR_PAD pts = false)
    (h1 : NoAdjDupB pts = true) (h2 : TripleFreeB pts = true) :
    rerouteAroundObstacles pts obstacles = pts := by
  by_cases hg : pts.length < 2 ∨ obstacles.length = 0
  · unfold rerouteAroundObstacles
    rw [if_pos hg]
  · cases pts with
    | nil => exact absurd (Or.inl (by simp)) hg
    | cons p rest =>
        unfold rerouteAroundObstacles
        rw [if_neg hg]
        simp only [rrPasses]
        rw [rrLoop_id obstacles rest p [] false hh]
        simpa using dedup_id _ h1 h2

/-- `l.dropLast ++ [l.getLastD d] = l` for nonempty `l`. -/
theorem dropLast_append_getLastD (l : List Point) (d : Point)
    (h : l ≠ []) : l.dropLast ++ [l.getLastD d] = l := by
  induction l generalizing d with
  | nil => exact absurd rfl h
  | cons a t ih =>
      cases t with
      | nil => rfl
      | cons b t' =>
          have := ih (d := d) (by simp)
          simpa [List.dropLast, List.getLastD] using congrArg (a :: ·) this

theorem ensurePerpendicularEntry_id (pts : List Point) (fp tp : Port)
    (hp : PerpCleanB fp tp pts = true) (h1 : NoAdjDupB pts = true)
    (h2 : TripleFreeB pts = true) :
    ensurePerpendicularEntry pts fp tp = pts := by
  match pts, hp, h1, h2 with
  | [], _, _, _ => rfl
  | [p], _, _, _ => rfl
  | p0 :: p1 :: rest, hp, h1, h2 =>
      simp only [PerpCleanB, Bool.and_eq_true] at hp
      simp only [ensurePerpendicularEntry]
      have hstart : (if (fp.dir = 0 ∨ fp.dir = 2) ∧ p0.y ≠ p1.y then
          [(⟨p0.x + DX fp.dir * PORT_EXTEND, p0.y⟩ : Point),
           ⟨p0.x + DX fp.dir * PORT_EXTEND, p1.y⟩]
        else if ¬(fp.dir = 0 ∨ fp.dir = 2) ∧ p0.x ≠ p1.x then
          [(⟨p0.x, p0.y + DY fp.dir * PORT_EXTEND⟩ : Point),
           ⟨p1.x, p0.y + DY fp.dir * PORT_EXTEND⟩]
        else []) = [] := by
        by_cases hh : fp.dir = 0 ∨ fp.dir = 2
        · have := hp.1
          rw [if_pos hh] at this
          rw [if_neg, if_neg]
          · rintro ⟨hcon, -⟩
            exact hcon hh
          · rintro ⟨-, hne⟩
            exact hne (by simpa using this)
        · have := hp.1
          rw [if_neg hh] at this
          rw [if_neg, if_neg]
          · rintro ⟨-, hne⟩
            exact hne (by simpa using this)
          · rintro ⟨hcon, -⟩
            exact hh hcon
      have hend : (if (tp.dir = 0 ∨ tp.dir = 2) ∧
          ((p0 :: p1 :: rest).dropLast.getLastD p0).y ≠
            ((p0 :: p1 :: rest).getLastD p1).y then
          [(⟨((p0 :: p1 :: rest).getLastD p1).x + DX tp.dir * PORT_EXTEND,
             ((p0 :: p1 :: rest).dropLast.getLastD p0).y⟩ : Point),
           ⟨((p0 :: p1 :: rest).getLastD p1).x + DX tp.dir * PORT_EXTEND,
            ((p0 :: p1 :: rest).getLastD p1).y⟩]
        else if ¬(tp.dir = 0 ∨ tp.dir = 2) ∧
            ((p0 :: p1 :: rest).dropLast.getLastD p0).x ≠
              ((p0 :: p1 :: rest).getLastD p1).x then
          [(⟨((p0 :: p1 :: rest).dropLast.getLastD p0).x,
             ((p0 :: p1 :: rest).getLastD p1).y + DY tp.dir * PORT_EXTEND⟩ : Point),
           ⟨((p0 :: p1 :: rest).getLastD p1).x,
            ((p0 :: p1 :: rest).getLastD p1).y + DY tp.dir * PORT_EXTEND⟩]
        else []) = [] := by
        by_cases hh : tp.dir = 0 ∨ tp.dir = 2
        · have := hp.2
          rw [if_pos hh] at this
          rw [if_neg, if_neg]
          · rintro ⟨hcon, -⟩
            exact hcon hh
          · rintro ⟨-, hne⟩
            exact hne (by simpa using this)
        · have := hp.2
          rw [if_neg hh] at this
          rw [if_neg, if_neg]
          · rintro ⟨-, hne⟩
            exact hne (by simpa using this)
          · rintro ⟨hcon, -⟩
            exact hh hcon
      rw [hstart, hend]
      have hshape : [p0] ++ [] ++ (p0 :: p1 :: rest).dropLast.drop 1 ++ [] ++
          [(p0 :: p1 :: rest).getLastD p1] = p0 :: p1 :: rest := by
        have hdl : (p0 :: p1 :: rest).dropLast = p0 :: (p1 :: rest).dropLast := by
          cases rest <;> rfl
        have hgl : (p0 :: p1 :: rest).getLastD p1 = (p1 :: rest).getLastD p1 := by
          cases rest <;> simp [List.getLastD]
        rw [hdl, hgl]
        simp only [List.drop_one, List.tail_cons, List.append_nil,
          List.nil_append, List.singleton_append, List.cons_append]
        exact congrArg (p0 :: ·) (dropLast_append_getLastD (p1 :: rest) p1 (by simp))
      rw [hshape]
      exact dedup_id _ h1 h2

-- ══ C5 amended theorem ══════════════════════════════════════

/-- C5 amended: the post-processing pipeline is the identity on
already-clean input — no adjacent duplicates, no three consecutive points
sharing a coordinate, no segment shorter than `MIN_SEG`, all segments
axis-aligned, no segment crossing an obstacle's `RR_PAD`-padded rectangle,
and first/last segments already perpendicular to their ports.  (On raw
input, a second application can differ from the first:
`c5_pipeline_not_idempotent`.) -/
theorem c5_amended_pipeline_id_on_clean (pts : List Point) (fp tp : Port)
    (obstacles : List Node)
    (h1 : NoAdjDupB pts = true) (h2 : TripleFreeB pts = true)
    (hm : MinSegB pts = true) (ho : OrthogonalB pts = true)
    (hh : routeHitsB obstacles RR_PAD pts = false)
    (hp : PerpCleanB fp tp pts = true) :
    postProcess pts fp tp obstacles = pts := by
  show ensurePerpendicularEntry
    (rerouteAroundObstacles (enforceOrthogonal (smoothKinks (dedup pts)))
      obstacles) fp tp = pts
  rw [dedup_id _ h1 h2, smoothKinks_id _ hm h1 h2,
    enforceOrthogonal_id _ ho h1 h2, rerouteAroundObstacles_id _ _ hh h1 h2,
    ensurePerpendicularEntry_id _ _ _ hp h1 h2]

/-- Witness for `c5_amended_pipeline_id_on_clean` at a concrete clean
path. -/
theorem c5_amended_pipeline_id_on_clean_witness :
    postProcess [⟨0, 0⟩, ⟨50, 0⟩] ⟨.right, 1/2, 0, 0, 0⟩
      ⟨.left, 1/2, 2, 50, 0⟩ [⟨"z", 200, 200, 10, 10⟩] =
      [⟨0, 0⟩, ⟨50, 0⟩] :=
  c5_amended_pipeline_id_on_clean [⟨0, 0⟩, ⟨50, 0⟩] ⟨.right, 1/2, 0, 0, 0⟩
    ⟨.left, 1/2, 2, 50, 0⟩ [⟨"z", 200, 200, 10, 10⟩] (by decide) (by decide)
    (by decide) (by decide) (by decide) (by decide)

-- ══ C3 amended theorem ══════════════════════════════════════

theorem rrLoop_false_no_hits (obstacles : List Node) (rest : List Point)
    (a : Point) (tl : List Point) (ch : Bool)
    (h : (rrLoop obstacles (a :: tl) ch rest).2 = false) :
    routeHitsB obstacles RR_PAD (a :: rest) = false := by
  induction rest generalizing a tl ch with
  | nil => rfl
  | cons b rest' ih =>
      simp only [rrLoop] at h
      cases hf : List.find? (fun n => segmentIntersectsRect a b n RR_PAD)
          obstacles with
      | some n =>
          rw [hf] at h
          exact absurd h (by simp [rrLoop_changed_true])
      | none =>
          rw [hf] at h
          have hany : obstacles.any (fun n => segmentIntersectsRect a b n RR_PAD)
              = false := by
            rw [List.any_eq_false]
            intro n hn
            have := List.find?_eq_none.mp hf n hn
            simpa using this
          have := ih b (a :: tl) ch h
          simp only [routeHitsB, Bool.or_eq_false_iff]
          exact ⟨hany, this⟩

/-- C3 amended: whenever the obstacle-rerouting pass reaches a fixpoint on
the path `rerouteAroundObstacles` returns (its `changed` flag stays false,
i.e. the 6-pass budget sufficed to converge), no segment of that returned
path intersects any obstacle's `RR_PAD`-padded rectangle.  (The final route
can still intersect obstacles: convergence can fail and
`ensurePerpendicularEntry` runs afterwards — `c3_route_intersects_obstacle`.) -/
theorem c3_amended_converged_reroute_clear (pts : List Point)
    (obstacles : List Node) (p0 : Point) (prest : List Point)
    (hret : rerouteAroundObstacles pts obstacles = p0 :: prest)
    (hfix : (rrLoop obstacles [p0] false prest).2 = false) :
    routeHitsB obstacles RR_PAD (rerouteAroundObstacles pts obstacles) = false := by
  rw [hret]
  exact rrLoop_false_no_hits obstacles prest p0 [] false hfix

/-- Witness for `c3_amended_converged_reroute_clear` at a concrete
converged rerouting. -/
theorem c3_amended_converged_reroute_clear_witness :
    routeHitsB [⟨"z", 200, 200, 10, 10⟩] RR_PAD
      (rerouteAroundObstacles [⟨0, 0⟩, ⟨50, 0⟩] [⟨"z", 200, 200, 10, 10⟩]) =
      false :=
  c3_amended_converged_reroute_clear [⟨0, 0⟩, ⟨50, 0⟩]
    [⟨"z", 200, 200, 10, 10⟩] ⟨0, 0⟩ [⟨50, 0⟩] (by decide) (by decide)

-- ══ C9 / C10: nearestPerimeterPoint ═════════════════════════

theorem pickNearest_mem (px py : Rat) :
    ∀ (l : List PerimPoint) (best : PerimPoint),
      pickNearest px py l best ∈ best :: l
  | [], best => by simp [pickNearest]
  | c :: rest, best => by
      simp only [pickNearest]
      by_cases hlt : sqDist px py c < sqDist px py best
      · rw [if_pos hlt]
        exact List.mem_cons_of_mem best (pickNearest_mem px py rest c)
      · rw [if_neg hlt]
        rcases List.mem_cons.mp (pickNearest_mem px py rest best) with h | h
        · rw [h]
          exact List.mem_cons_self _ _
        · exact List.mem_cons_of_mem _ (List.mem_cons_of_mem _ h)

theorem pickNearest_min (px py : Rat) :
    ∀ (l : List PerimPoint) (best : PerimPoint),
      sqDist px py (pickNearest px py l best) ≤ sqDist px py best ∧
        ∀ c ∈ l, sqDist px py (pickNearest px py l best) ≤ sqDist px py c
  | [], best => ⟨le_refl _, by simp⟩
  | c :: rest, best => by
      simp only [pickNearest]
      by_cases hlt : sqDist px py c < sqDist px py best
      · rw [if_pos hlt]
        have h := pickNearest_min px py rest c
        refine ⟨le_trans h.1 (le_of_lt hlt), ?_⟩
        intro d hd
        rcases List.mem_cons.mp hd with hd | hd
        · exact hd ▸ h.1
        · exact h.2 d hd
      · rw [if_neg hlt]
        have h := pickNearest_min px py rest best
        refine ⟨h.1, ?_⟩
        intro d hd
        rcases List.mem_cons.mp hd with hd | hd
        · exact hd ▸ le_trans h.1 (not_lt.mp hlt)
        · exact h.2 d hd

/-- `nearestPerimeterPoint` is the clamped-offset version of the nearest
candidate chosen by the `d < bestDist` fold. -/
theorem nearestPerimeterPoint_eq (node : Node) (px py : Rat) :
    ∃ c rest, perimCandidates node px py = c :: rest ∧
      nearestPerimeterPoint node px py =
        { pickNearest px py rest c with
          offset := max (1 / 10) (min (9 / 10)
            (pickNearest px py rest c).offset) } := by
  match hc : perimCandidates node px py with
  | [] => simp [perimCandidates] at hc
  | c :: rest =>
      refine ⟨c, rest, rfl, ?_⟩
      simp only [nearestPerimeterPoint, hc]

/-- C9: for every node (including degenerate sizes) and query point, the
offset returned by `nearestPerimeterPoint` lies in `[0.1, 0.9]`; and when
the relevant side length is not positive the offset defaults to `0.5`
instead of dividing by zero. -/
theorem c9_offset_clamped_and_zero_side_default (node : Node) (px py : Rat) :
    (1 / 10 ≤ (nearestPerimeterPoint node px py).offset ∧
      (nearestPerimeterPoint node px py).offset ≤ 9 / 10) ∧
    (¬0 < node.width →
      ((nearestPerimeterPoint node px py).side = .top ∨
        (nearestPerimeterPoint node px py).side = .bottom) →
      (nearestPerimeterPoint node px py).offset = 1 / 2) ∧
    (¬0 < node.height →
      ((nearestPerimeterPoint node px py).side = .right ∨
        (nearestPerimeterPoint node px py).side = .left) →
      (nearestPerimeterPoint node px py).offset = 1 / 2) := by
  obtain ⟨c, rest, hc, hre⟩ := nearestPerimeterPoint_eq node px py
  have hmem : pickNearest px py rest c ∈ perimCandidates node px py := by
    rw [hc]
    exact pickNearest_mem px py rest c
  refine ⟨?_, ?_, ?_⟩
  · rw [hre]
    exact ⟨le_max_left _ _, max_le (by norm_num) (min_le_left _ _)⟩
  · intro hw hside
    rw [hre] at hside ⊢
    simp only [perimCandidates, List.mem_cons, List.not_mem_nil,
      or_false] at hmem
    rcases hmem with hcand | hcand | hcand | hcand <;> rw [hcand] at hside ⊢
    · simp only [gt_iff_lt, if_neg hw]
      norm_num
    · simp at hside
    · simp only [gt_iff_lt, if_neg hw]
      norm_num
    · simp at hside
  · intro hh hside
    rw [hre] at hside ⊢
    simp only [perimCandidates, List.mem_cons, List.not_mem_nil,
      or_false] at hmem
    rcases hmem with hcand | hcand | hcand | hcand <;> rw [hcand] at hside ⊢
    · simp at hside
    · simp only [gt_iff_lt, if_neg hh]
      norm_num
    · simp at hside
    · simp only [gt_iff_lt, if_neg hh]
      norm_num

/-- Witness for `c9_offset_clamped_and_zero_side_default` at a zero-width
node. -/
theorem c9_offset_clamped_and_zero_side_default_witness :
    (1 / 10 ≤ (nearestPerimeterPoint ⟨"z", 0, 0, 0, 60⟩ (-5) 30).offset ∧
      (nearestPerimeterPoint ⟨"z", 0, 0, 0, 60⟩ (-5) 30).offset ≤ 9 / 10) ∧
    (¬0 < (Node.width ⟨"z", 0, 0, 0, 60⟩) →
      ((nearestPerimeterPoint ⟨"z", 0, 0, 0, 60⟩ (-5) 30).side = .top ∨
        (nearestPerimeterPoint ⟨"z", 0, 0, 0, 60⟩ (-5) 30).side = .bottom) →
      (nearestPerimeterPoint ⟨"z", 0, 0, 0, 60⟩ (-5) 30).offset = 1 / 2) ∧
    (¬0 < (Node.height ⟨"z", 0, 0, 0, 60⟩) →
      ((nearestPerimeterPoint ⟨"z", 0, 0, 0, 60⟩ (-5) 30).side = .right ∨
        (nearestPerimeterPoint ⟨"z", 0, 0, 0, 60⟩ (-5) 30).side = .left) →
      (nearestPerimeterPoint ⟨"z", 0, 0, 0, 60⟩ (-5) 30).offset = 1 / 2) :=
  c9_offset_clamped_and_zero_side_default ⟨"z", 0, 0, 0, 60⟩ (-5) 30

/-- C10: for positive node sizes, `nearestPerimeterPoint` returns a point on
the node's rectangle boundary that is nearest among the four per-side
clamped projections; its `x`/`y`/`side` are those of the chosen unclamped
candidate while only the offset is clamped — so interpolating the returned
side and offset need not reproduce the returned point, as the final
conjunct shows on a concrete query. -/
theorem c10_perimeter_point_on_boundary_nearest (node : Node) (px py : Rat)
    (hw : 0 < node.width) (hh : 0 < node.height) :
    (((nearestPerimeterPoint node px py).y = node.y ∨
        (nearestPerimeterPoint node px py).y = node.y + node.height) ∧
       node.x ≤ (nearestPerimeterPoint node px py).x ∧
       (nearestPerimeterPoint node px py).x ≤ node.x + node.width ∨
     ((nearestPerimeterPoint node px py).x = node.x ∨
        (nearestPerimeterPoint node px py).x = node.x + node.width) ∧
       node.y ≤ (nearestPerimeterPoint node px py).y ∧
       (nearestPerimeterPoint node px py).y ≤ node.y + node.height) ∧
    (∀ c ∈ perimCandidates node px py,
      sqDist px py (nearestPerimeterPoint node px py) ≤ sqDist px py c) ∧
    (∃ c ∈ perimCandidates node px py,
      (nearestPerimeterPoint node px py).x = c.x ∧
      (nearestPerimeterPoint node px py).y = c.y ∧
      (nearestPerimeterPoint node px py).side = c.side ∧
      (nearestPerimeterPoint node px py).offset =
        max (1 / 10) (min (9 / 10) c.offset)) ∧
    portToWorld ⟨"q", 0, 0, 100, 60⟩
        (nearestPerimeterPoint ⟨"q", 0, 0, 100, 60⟩ 1 (-50)).side
        (nearestPerimeterPoint ⟨"q", 0, 0, 100, 60⟩ 1 (-50)).offset ≠
      ⟨(nearestPerimeterPoint ⟨"q", 0, 0, 100, 60⟩ 1 (-50)).x,
       (nearestPerimeterPoint ⟨"q", 0, 0, 100, 60⟩ 1 (-50)).y⟩ := by
  obtain ⟨c, rest, hc, hre⟩ := nearestPerimeterPoint_eq node px py
  have hmem : pickNearest px py rest c ∈ perimCandidates node px py := by
    rw [hc]
    exact pickNearest_mem px py rest c
  have hmin : ∀ d ∈ perimCandidates node px py,
      sqDist px py (pickNearest px py rest c) ≤ sqDist px py d := by
    intro d hd
    rw [hc] at hd
    rcases List.mem_cons.mp hd with hd | hd
    · exact hd ▸ (pickNearest_min px py rest c).1
    · exact (pickNearest_min px py rest c).2 d hd
  refine ⟨?_, ?_, ?_, by decide⟩
  · simp only [perimCandidates, List.mem_cons, List.not_mem_nil,
      or_false] at hmem
    rw [hre]
    rcases hmem with hcand | hcand | hcand | hcand <;> rw [hcand]
    · exact Or.inl ⟨Or.inl rfl, le_max_left _ _,
        max_le (by linarith) (min_le_left _ _)⟩
    · exact Or.inr ⟨Or.inr rfl, le_max_left _ _,
        max_le (by linarith) (min_le_left _ _)⟩
    · exact Or.inl ⟨Or.inr rfl, le_max_left _ _,
        max_le (by linarith) (min_le_left _ _)⟩
    · exact Or.inr ⟨Or.inl rfl, le_max_left _ _,
        max_le (by linarith) (min_le_left _ _)⟩
  · intro d hd
    have : sqDist px py (nearestPerimeterPoint node px py) =
        sqDist px py (pickNearest px py rest c) := by
      rw [hre]
      simp [sqDist]
    rw [this]
    exact hmin d hd
  · exact ⟨pickNearest px py rest c, hmem, by rw [hre], by rw [hre],
      by rw [hre], by rw [hre]⟩

/-- Witness for `c10_perimeter_point_on_boundary_nearest` at a concrete
node and query. -/
theorem c10_perimeter_point_on_boundary_nearest_witness :
    (((nearestPerimeterPoint ⟨"n", 0, 0, 100, 60⟩ (-5) (-5)).y =
          (Node.y ⟨"n", 0, 0, 100, 60⟩) ∨
        (nearestPerimeterPoint ⟨"n", 0, 0, 100, 60⟩ (-5) (-5)).y =
          (Node.y ⟨"n", 0, 0, 100, 60⟩) + (Node.height ⟨"n", 0, 0, 100, 60⟩)) ∧
       (Node.x ⟨"n", 0, 0, 100, 60⟩) ≤
          (nearestPerimeterPoint ⟨"n", 0, 0, 100, 60⟩ (-5) (-5)).x ∧
       (nearestPerimeterPoint ⟨"n", 0, 0, 100, 60⟩ (-5) (-5)).x ≤
          (Node.x ⟨"n", 0, 0, 100, 60⟩) + (Node.width ⟨"n", 0, 0, 100, 60⟩) ∨
     ((nearestPerimeterPoint ⟨"n", 0, 0, 100, 60⟩ (-5) (-5)).x =
          (Node.x ⟨"n", 0, 0, 100, 60⟩) ∨
        (nearestPerimeterPoint ⟨"n", 0, 0, 100, 60⟩ (-5) (-5)).x =
          (Node.x ⟨"n", 0, 0, 100, 60⟩) + (Node.width ⟨"n", 0, 0, 100, 60⟩)) ∧
       (Node.y ⟨"n", 0, 0, 100, 60⟩) ≤
          (nearestPerimeterPoint ⟨"n", 0, 0, 100, 60⟩ (-5) (-5)).y ∧
       (nearestPerimeterPoint ⟨"n", 0, 0, 100, 60⟩ (-5) (-5)).y ≤
          (Node.y ⟨"n", 0, 0, 100, 60⟩) + (Node.height ⟨"n", 0, 0, 100, 60⟩)) ∧
    (∀ c ∈ perimCandidates ⟨"n", 0, 0, 100, 60⟩ (-5) (-5),
      sqDist (-5) (-5) (nearestPerimeterPoint ⟨"n", 0, 0, 100, 60⟩ (-5) (-5)) ≤
        sqDist (-5) (-5) c) ∧
    (∃ c ∈ perimCandidates ⟨"n", 0, 0, 100, 60⟩ (-5) (-5),
      (nearestPerimeterPoint ⟨"n", 0, 0, 100, 60⟩ (-5) (-5)).x = c.x ∧
      (nearestPerimeterPoint ⟨"n", 0, 0, 100, 60⟩ (-5) (-5)).y = c.y ∧
      (nearestPerimeterPoint ⟨"n", 0, 0, 100, 60⟩ (-5) (-5)).side = c.side ∧
      (nearestPerimeterPoint ⟨"n", 0, 0, 100, 60⟩ (-5) (-5)).offset =
        max (1 / 10) (min (9 / 10) c.offset)) ∧
    portToWorld ⟨"q", 0, 0, 100, 60⟩
        (nearestPerimeterPoint ⟨"q", 0, 0, 100, 60⟩ 1 (-50)).side
        (nearestPerimeterPoint ⟨"q", 0, 0, 100, 60⟩ 1 (-50)).offset ≠
      ⟨(nearestPerimeterPoint ⟨"q", 0, 0, 100, 60⟩ 1 (-50)).x,
       (nearestPerimeterPoint ⟨"q", 0, 0, 100, 60⟩ 1 (-50)).y⟩ :=
  c10_perimeter_point_on_boundary_nearest ⟨"n", 0, 0, 100, 60⟩ (-5) (-5)
    (by norm_num) (by norm_num)

-- ══ C6: auto port offsets ═══════════════════════════════════

theorem mem_stableInsert {α : Type} (le : α → α → Bool) (a x : α) :
    ∀ l : List α, x ∈ stableInsert le a l ↔ x = a ∨ x ∈ l
  | [] => by simp [stableInsert]
  | b :: rest => by
      simp only [stableInsert]
      by_cases hle : le a b = true
      · rw [if_pos hle]
        simp
      · rw [if_neg hle]
        rw [List.mem_cons, mem_stableInsert le a x rest, List.mem_cons]
        tauto

theorem stableInsert_perm {α : Type} (le : α → α → Bool) (a : α) :
    ∀ l : List α, (stableInsert le a l).Perm (a :: l)
  | [] => by simp [stableInsert]
  | b :: rest => by
      simp only [stableInsert]
      by_cases hle : le a b = true
      · rw [if_pos hle]
      · rw [if_neg hle]
        exact ((stableInsert_perm le a rest).cons b).trans (List.Perm.swap a b rest)

theorem stableSort_perm {α : Type} (le : α → α → Bool) :
    ∀ l : List α, (stableSort le l).Perm l
  | [] => by simp [stableSort]
  | a :: rest => by
      simp only [stableSort]
      exact (stableInsert_perm le a (stableSort le rest)).trans
        ((stableSort_perm le rest).cons a)

theorem pairwise_stableInsert {α : Type} (le : α → α → Bool)
    (htot : ∀ a b, le a b = true ∨ le b a = true)
    (htr : ∀ a b c, le a b = true → le b c = true → le a c = true) (a : α) :
    ∀ l : List α, List.Pairwise (fun x y => le x y = true) l →
      List.Pairwise (fun x y => le x y = true) (stableInsert le a l)
  | [], _ => by simp [stableInsert]
  | b :: rest, h => by
      simp only [stableInsert]
      rcases List.pairwise_cons.mp h with ⟨hb, hrest⟩
      by_cases hle : le a b = true
      · rw [if_pos hle]
        refine List.pairwise_cons.mpr ⟨?_, h⟩
        intro x hx
        rcases List.mem_cons.mp hx with hx | hx
        · exact hx ▸ hle
        · exact htr a b x hle (hb x hx)
      · rw [if_neg hle]
        refine List.pairwise_cons.mpr ⟨?_, pairwise_stableInsert le htot htr a rest hrest⟩
        intro x hx
        rcases (mem_stableInsert le a x rest).mp hx with hx | hx
        · rw [hx]
          rcases htot a b with h' | h'
          · exact absurd h' hle
          · exact h'
        · exact hb x hx

theorem pairwise_stableSort {α : Type} (le : α → α → Bool)
    (htot : ∀ a b, le a b = true ∨ le b a = true)
    (htr : ∀ a b c, le a b = true → le b c = true → le a c = true) :
    ∀ l : List α, List.Pairwise (fun x y => le x y = true) (stableSort le l)
  | [] => by simp [stableSort]
  | a :: rest => by
      simp only [stableSort]
      exact pairwise_stableInsert le htot htr a _
        (pairwise_stableSort le htot htr rest)

theorem stableSort_length {α : Type} (le : α → α → Bool) (l : List α) :
    (stableSort le l).length = l.length :=
  (stableSort_perm le l).length_eq

theorem filter_length_partition {α : Type} (p : α → Bool) :
    ∀ l : List α, (l.filter p).length + (l.filter (fun a => !p a)).length =
      l.length
  | [] => rfl
  | a :: rest => by
      have ih := filter_length_partition p rest
      by_cases hp : p a = true
      · simp [List.filter_cons, hp]
        omega
      · have hp' : p a = false := Bool.eq_false_iff.mpr hp
        simp [List.filter_cons, hp']
        omega

theorem claimStep_length (positions : List Rat) (used : List Nat) (ep : EP) :
    (claimStep positions used ep).length ≤ used.length + 1 := by
  simp only [claimStep]
  split
  · omega
  · simp

theorem claimUsed_length_le (positions : List Rat) (pinned : List EP) :
    (claimUsed positions pinned).length ≤ pinned.length := by
  have key : ∀ (l : List EP) (used0 : List Nat),
      (l.foldl (claimStep positions) used0).length ≤ used0.length + l.length := by
    intro l
    induction l with
    | nil => intro used0; simp
    | cons ep rest ih =>
        intro used0
        simp only [List.foldl_cons, List.length_cons]
        have h1 := ih (claimStep positions used0 ep)
        have h2 := claimStep_length positions used0 ep
        omega
  simpa [claimUsed] using key pinned []

theorem availIdxs_length_ge (total : Nat) (used : List Nat) :
    total - used.length ≤ (availIdxs total used).length := by
  have hpart := filter_length_partition (fun i => used.contains i)
    (List.range total)
  have hsub : ((List.range total).filter
      (fun i => used.contains i)).length ≤ used.length := by
    set d := (List.range total).filter (fun i => used.contains i) with hd
    have hnd : d.Nodup := (List.nodup_range total).filter _
    have hss : ∀ x ∈ d, x ∈ used := by
      intro x hx
      have hcx := (List.mem_filter.mp hx).2
      simpa using hcx
    calc d.length = d.toFinset.card := (List.toFinset_card_of_nodup hnd).symm
      _ ≤ used.toFinset.card := Finset.card_le_card (fun x hx =>
          List.mem_toFinset.mpr (hss x (List.mem_toFinset.mp hx)))
      _ ≤ used.length := used.toFinset_card_le
  have hlen : (List.range total).length = total := List.length_range total
  have hav : (availIdxs total used).length =
      ((List.range total).filter (fun i => !used.contains i)).length := rfl
  omega

theorem slotPositions_length (total : Nat) :
    (slotPositions total).length = total := by
  rw [slotPositions, List.length_map, List.length_range]

theorem slotPositions_getD (total k : Nat) (hk : k < total) :
    (slotPositions total).getD k 0 = ((k : Rat) + 1) / ((total : Rat) + 1) := by
  have hk' : k < (slotPositions total).length := by
    rw [slotPositions_length]; exact hk
  rw [List.getD_eq_getElem _ _ hk']
  simp only [slotPositions, List.getElem_map, List.getElem_range]

theorem availIdxs_pairwise (total : Nat) (used : List Nat) :
    List.Pairwise (· < ·) (availIdxs total used) :=
  (List.pairwise_lt_range total).filter _

theorem availIdxs_mem_lt (total : Nat) (used : List Nat) (x : Nat)
    (hx : x ∈ availIdxs total used) : x < total :=
  List.mem_range.mp (List.mem_filter.mp hx).1

theorem chain'_lt_map_range (f : Nat → Rat) (n : Nat)
    (h : ∀ m, m + 1 < n → f m < f (m + 1)) :
    List.Chain' (· < ·) ((List.range n).map f) := by
  rw [List.chain'_map]
  cases n with
  | zero => simp
  | succ k =>
      rw [List.chain'_range_succ]
      intro m hm
      exact h m (by omega)

/-- C6: in every `(node, side)` group, the offsets handed to the unpinned
endpoints are strictly increasing (hence duplicate-free), and the unpinned
endpoints receiving them (in that order, via the `zip` in `processGroup`)
are exactly the sorted-by-opposite-center list — so the assignment is
consistent with that sort order. -/
theorem c6_auto_offsets_strictly_increasing_sorted (eps : List EP)
    (side : Side) :
    List.Chain' (· < ·)
      (autoOffsets (slotPositions eps.length)
        (availIdxs (slotPositions eps.length).length
          (claimUsed (slotPositions eps.length)
            (eps.filter (fun e => e.pinned))))
        (sortAuto side (eps.filter (fun e => !e.pinned))).length) ∧
    List.Pairwise (fun a b => epSortKey side a ≤ epSortKey side b)
      (sortAuto side (eps.filter (fun e => !e.pinned))) := by
  constructor
  · set total := eps.length with htotal
    set positions := slotPositions eps.length with hpos
    set used := claimUsed positions (eps.filter (fun e => e.pinned)) with hused
    set avail := availIdxs positions.length used with havail
    set autoLen := (sortAuto side (eps.filter (fun e => !e.pinned))).length
      with hAL
    have hALle : autoLen ≤ avail.length := by
      have h1 : autoLen = (eps.filter (fun e => !e.pinned)).length := by
        rw [hAL]
        exact stableSort_length _ _
      have h2 : (eps.filter (fun e => e.pinned)).length +
          (eps.filter (fun e => !e.pinned)).length = eps.length :=
        filter_length_partition _ eps
      have h3 : used.length ≤ (eps.filter (fun e => e.pinned)).length :=
        claimUsed_length_le _ _
      have h4 : positions.length - used.length ≤ avail.length :=
        availIdxs_length_ge _ _
      have h5 : positions.length = total := by
        rw [hpos, htotal]
        exact slotPositions_length _
      omega
    simp only [autoOffsets]
    apply chain'_lt_map_range
    intro m hm
    have hm1 : m < avail.length := by omega
    have hm2 : m + 1 < avail.length := by omega
    rw [if_pos hm1, if_pos hm2]
    have hidx : avail.getD m 0 < avail.getD (m + 1) 0 := by
      rw [List.getD_eq_getElem _ _ hm1, List.getD_eq_getElem _ _ hm2]
      exact List.pairwise_iff_getElem.mp (availIdxs_pairwise _ _) m (m + 1)
        hm1 hm2 (Nat.lt_succ_self m)
    have hlt2 : avail.getD (m + 1) 0 < positions.length := by
      rw [List.getD_eq_getElem _ _ hm2]
      exact availIdxs_mem_lt _ _ _ (List.getElem_mem _)
    have hlt1 : avail.getD m 0 < positions.length := lt_trans hidx hlt2
    have h5 : positions.length = total := by
      rw [hpos, htotal]
      exact slotPositions_length _
    rw [hpos] at hlt1 hlt2 ⊢
    have h6 : (slotPositions eps.length).length = eps.length :=
      slotPositions_length _
    rw [slotPositions_getD _ _ (by omega : avail.getD m 0 < eps.length),
      slotPositions_getD _ _ (by omega : avail.getD (m + 1) 0 < eps.length)]
    have hden : (0 : Rat) < (eps.length : Rat) + 1 := by positivity
    have hnum : ((avail.getD m 0 : Nat) : Rat) + 1 <
        ((avail.getD (m + 1) 0 : Nat) : Rat) + 1 := by
      have : ((avail.getD m 0 : Nat) : Rat) < ((avail.getD (m + 1) 0 : Nat) : Rat) := by
        exact_mod_cast hidx
      linarith
    exact div_lt_div_of_pos_right hnum hden
  · have h := pairwise_stableSort
      (fun a b : EP => decide (epSortKey side a ≤ epSortKey side b))
      (fun a b => by
        rcases le_total (epSortKey side a) (epSortKey side b) with h | h
        · exact Or.inl (decide_eq_true h)
        · exact Or.inr (decide_eq_true h))
      (fun a b c hab hbc => decide_eq_true
        (le_trans (of_decide_eq_true hab) (of_decide_eq_true hbc)))
      (eps.filter (fun e => !e.pinned))
    have hsa : sortAuto side (eps.filter (fun e => !e.pinned)) =
        stableSort (fun a b => decide (epSortKey side a ≤ epSortKey side b))
          (eps.filter (fun e => !e.pinned)) := rfl
    rw [hsa]
    exact h.imp (fun hxy => of_decide_eq_true hxy)

-- ══ C7: dragging skips the usage grid ═══════════════════════

theorem raeStep_dragging_usage (nodes : List Node)
    (assignments : List (String × PortPair)) (bbox : BBox) (gi : GridInfo)
    (st : List (String × List Point) × List (Int × Int)) (ed : Edge × Rat) :
    (raeStep nodes assignments bbox gi true st ed).2 = st.2 := by
  rcases hl : assignments.lookup ed.1.id with _ | ⟨fP, tP⟩
  · simp [raeStep, hl]
  rcases fP with _ | f
  · simp [raeStep, hl]
  rcases tP with _ | t
  · simp [raeStep, hl]
  rcases hf : findNode nodes ed.1.fromId with _ | fn
  · simp [raeStep, hl, hf]
  rcases ht : findNode nodes ed.1.toId with _ | tn
  · simp [raeStep, hl, hf, ht]
  · simp [raeStep, hl, hf, ht]

theorem raeFold_dragging_usage (nodes : List Node)
    (assignments : List (String × PortPair)) (bbox : BBox) (gi : GridInfo) :
    ∀ (l : List (Edge × Rat)) (st : List (String × List Point) × List (Int × Int)),
      (l.foldl (raeStep nodes assignments bbox gi true) st).2 = st.2
  | [], _ => rfl
  | ed :: rest, st => by
      rw [List.foldl_cons]
      rw [raeFold_dragging_usage nodes assignments bbox gi rest _]
      exact raeStep_dragging_usage nodes assignments bbox gi st ed

theorem upsertRoute_lookup_self (routes : List (String × List Point))
    (id : String) (path : List Point) :
    (upsertRoute routes id path).lookup id = some path := by
  induction routes with
  | nil => simp [upsertRoute, List.lookup]
  | cons kv rest ih =>
      obtain ⟨k, v⟩ := kv
      by_cases hk : k = id
      · simp [upsertRoute, hk, List.lookup]
      · simp only [upsertRoute, if_neg hk]
        have hbeq : (id == k) = false := by
          simp [hk]
          exact fun h => hk h.symm
        simp [List.lookup, hbeq, ih]

theorem upsertRoute_lookup_ne (routes : List (String × List Point))
    (id id' : String) (path : List Point) (h : id' ≠ id) :
    (upsertRoute routes id path).lookup id' = routes.lookup id' := by
  induction routes with
  | nil =>
      have hbeq : (id' == id) = false := by
        simp [h]
      simp [upsertRoute, List.lookup, hbeq]
  | cons kv rest ih =>
      obtain ⟨k, v⟩ := kv
      by_cases hk : k = id
      · subst hk
        have hbeq : (id' == k) = false := by
          simp [h]
        simp [upsertRoute, List.lookup, hbeq]
      · simp only [upsertRoute, if_neg hk]
        by_cases hk' : (id' == k) = true
        · simp [List.lookup, hk']
        · have : (id' == k) = false := Bool.eq_false_iff.mpr hk'
          simp [List.lookup, this, ih]

theorem raeStep_lookup_ne (nodes : List Node)
    (assignments : List (String × PortPair)) (bbox : BBox) (gi : GridInfo)
    (isDragging : Bool) (st : List (String × List Point) × List (Int × Int))
    (ed : Edge × Rat) (id' : String) (h : id' ≠ ed.1.id) :
    (raeStep nodes assignments bbox gi isDragging st ed).1.lookup id' =
      st.1.lookup id' := by
  rcases hl : assignments.lookup ed.1.id with _ | ⟨fP, tP⟩
  · simp [raeStep, hl]
  rcases fP with _ | f
  · simp [raeStep, hl]
  rcases tP with _ | t
  · simp [raeStep, hl]
  rcases hf : findNode nodes ed.1.fromId with _ | fn
  · simp [raeStep, hl, hf]
  rcases ht : findNode nodes ed.1.toId with _ | tn
  · simp [raeStep, hl, hf, ht]
  · simp only [raeStep, hl, hf, ht]
    exact upsertRoute_lookup_ne _ _ _ _ h

theorem raeFold_lookup_skip (nodes : List Node)
    (assignments : List (String × PortPair)) (bbox : BBox) (gi : GridInfo)
    (isDragging : Bool) (id' : String) :
    ∀ (l : List (Edge × Rat)) (st : List (String × List Point) × List (Int × Int)),
      (∀ p ∈ l, p.1.id ≠ id') →
      (l.foldl (raeStep nodes assignments bbox gi isDragging) st).1.lookup id' =
        st.1.lookup id'
  | [], _, _ => rfl
  | ed :: rest, st, h => by
      rw [List.foldl_cons]
      rw [raeFold_lookup_skip nodes assignments bbox gi isDragging id' rest _
        (fun p hp => h p (List.mem_cons_of_mem ed hp))]
      exact raeStep_lookup_ne nodes assignments bbox gi isDragging st ed id'
        (fun hh => h ed (List.mem_cons_self ed rest) hh.symm)

theorem raeFold_dragging_writes (nodes : List Node)
    (assignments : List (String × PortPair)) (bbox : BBox) (gi : GridInfo)
    (e : Edge) (f t : Port)
    (ha : assignments.lookup e.id = some ⟨some f, some t⟩)
    (fn tn : Node) (hfn : findNode nodes e.fromId = some fn)
    (htn : findNode nodes e.toId = some tn) :
    ∀ (l : List (Edge × Rat)) (st : List (String × List Point) × List (Int × Int)),
      (l.map (fun p => p.1.id)).Nodup →
      (∃ d, (e, d) ∈ l) →
      (l.foldl (raeStep nodes assignments bbox gi true) st).1.lookup e.id =
        some (routeEdgeWithPorts f t
          (nodes.filter fun n => n.id ≠ e.fromId ∧ n.id ≠ e.toId) bbox st.2)
  | [], _, _, hmem => absurd hmem (by simp)
  | ed :: rest, st, hnd, hmem => by
      rw [List.foldl_cons]
      obtain ⟨d, hd⟩ := hmem
      rcases List.mem_cons.mp hd with hd | hd
      · -- the head is our edge: it writes, the tail never touches the key
        have hed : ed = (e, d) := hd.symm
        subst hed
        rw [List.map_cons] at hnd
        rcases List.nodup_cons.mp hnd with ⟨hni, hndt⟩
        have hrest : ∀ p ∈ rest, p.1.id ≠ e.id := by
          intro p hp hpe
          exact hni (hpe ▸ List.mem_map_of_mem (fun p => p.1.id) hp)
        rw [raeFold_lookup_skip nodes assignments bbox gi true e.id rest _ hrest]
        simp [raeStep, ha, hfn, htn, upsertRoute_lookup_self]
      · -- our edge lies in the tail; the head step keeps the usage grid
        have hst2 : (raeStep nodes assignments bbox gi true st ed).2 = st.2 :=
          raeStep_dragging_usage nodes assignments bbox gi st ed
        rw [List.map_cons] at hnd
        rw [raeFold_dragging_writes nodes assignments bbox gi e f t ha fn tn
          hfn htn rest _ (List.nodup_cons.mp hnd).2 ⟨d, hd⟩]
        rw [hst2]

/-- C7: with `isDragging = true` every routed edge is computed against the
empty usage grid, so its stored route is a function of the nodes, the
bounding box and its own port assignment only — independent of the other
edges' routes and of the processing order; consequently two calls whose
edge lists induce the same port assignments (for example, the same call
made twice, or any reordering that keeps the assignments) store the same
route for the edge. -/
theorem c7_dragging_routes_usage_independent (nodes : List Node)
    (edges : List Edge) (e : Edge) (f t : Port) (fn tn : Node)
    (hnd : (edges.map (fun e => e.id)).Nodup) (he : e ∈ edges)
    (ha : (computePortAssignments nodes edges).lookup e.id =
      some ⟨some f, some t⟩)
    (hfn : findNode nodes e.fromId = some fn)
    (htn : findNode nodes e.toId = some tn) :
    (routeAllEdges nodes edges true).lookup e.id =
      some (routeEdgeWithPorts f t
        (nodes.filter fun n => n.id ≠ e.fromId ∧ n.id ≠ e.toId)
        (computeBBox nodes) []) ∧
    (∀ edges₂ : List Edge, (edges₂.map (fun e => e.id)).Nodup → e ∈ edges₂ →
      computePortAssignments nodes edges₂ = computePortAssignments nodes edges →
      (routeAllEdges nodes edges₂ true).lookup e.id =
        (routeAllEdges nodes edges true).lookup e.id) := by
  have main : ∀ (edges' : List Edge), (edges'.map (fun e => e.id)).Nodup →
      e ∈ edges' →
      computePortAssignments nodes edges' = computePortAssignments nodes edges →
      (routeAllEdges nodes edges' true).lookup e.id =
        some (routeEdgeWithPorts f t
          (nodes.filter fun n => n.id ≠ e.fromId ∧ n.id ≠ e.toId)
          (computeBBox nodes) []) := by
    intro edges' hnd' he' hasg
    have hne : ¬(nodes.isEmpty ∨ edges'.isEmpty) := by
      rintro (h | h)
      · have : nodes = [] := List.isEmpty_iff.mp h
        rw [this] at hfn
        exact absurd hfn (by simp [findNode])
      · rw [List.isEmpty_iff.mp h] at he'
        exact absurd he' (by simp)
    unfold routeAllEdges
    rw [if_neg hne, hasg]
    set withDist := edges'.map (fun e2 =>
      (e2, edgeDist (computePortAssignments nodes edges) e2)) with hwd
    set sortedE := stableSort (fun a b => a.2 ≤ b.2) withDist with hse
    have hmem : (e, edgeDist (computePortAssignments nodes edges) e) ∈ sortedE := by
      rw [hse]
      rw [(stableSort_perm _ withDist).mem_iff]
      rw [hwd]
      exact List.mem_map_of_mem _ he'
    have hndse : (sortedE.map (fun p => p.1.id)).Nodup := by
      have hperm : (sortedE.map (fun p => p.1.id)).Perm
          (withDist.map (fun p => p.1.id)) :=
        (stableSort_perm _ withDist).map _
      have heq : withDist.map (fun p => p.1.id) =
          edges'.map (fun e => e.id) := by
        rw [hwd, List.map_map]
        rfl
      rw [hperm.nodup_iff, heq]
      exact hnd'
    exact raeFold_dragging_writes nodes _ (computeBBox nodes) _ e f t ha fn tn
      hfn htn sortedE ([], []) hndse
      ⟨edgeDist (computePortAssignments nodes edges) e, hmem⟩
  refine ⟨main edges hnd he rfl, ?_⟩
  intro edges₂ hnd₂ he₂ hasg₂
  rw [main edges₂ hnd₂ he₂ hasg₂, main edges hnd he rfl]

/-- Witness for `c7_dragging_routes_usage_independent` at a concrete
two-node, one-edge diagram. -/
theorem c7_dragging_routes_usage_independent_witness :
    (routeAllEdges [⟨"A", 0, 0, 100, 50⟩, ⟨"B", 300, 0, 100, 50⟩]
        [⟨"w", "A", "B", none, none⟩] true).lookup "w" =
      some (routeEdgeWithPorts ⟨.right, 1/2, 0, 100, 25⟩ ⟨.left, 1/2, 2, 300, 25⟩
        ([⟨"A", 0, 0, 100, 50⟩, ⟨"B", 300, 0, 100, 50⟩].filter fun n =>
          n.id ≠ (Edge.fromId ⟨"w", "A", "B", none, none⟩) ∧
          n.id ≠ (Edge.toId ⟨"w", "A", "B", none, none⟩))
        (computeBBox [⟨"A", 0, 0, 100, 50⟩, ⟨"B", 300, 0, 100, 50⟩]) []) ∧
    (∀ edges₂ : List Edge, (edges₂.map (fun e => e.id)).Nodup →
      (⟨"w", "A", "B", none, none⟩ : Edge) ∈ edges₂ →
      computePortAssignments [⟨"A", 0, 0, 100, 50⟩, ⟨"B", 300, 0, 100, 50⟩] edges₂ =
        computePortAssignments [⟨"A", 0, 0, 100, 50⟩, ⟨"B", 300, 0, 100, 50⟩]
          [⟨"w", "A", "B", none, none⟩] →
      (routeAllEdges [⟨"A", 0, 0, 100, 50⟩, ⟨"B", 300, 0, 100, 50⟩] edges₂
          true).lookup "w" =
        (routeAllEdges [⟨"A", 0, 0, 100, 50⟩, ⟨"B", 300, 0, 100, 50⟩]
          [⟨"w", "A", "B", none, none⟩] true).lookup "w") :=
  c7_dragging_routes_usage_independent [⟨"A", 0, 0, 100, 50⟩, ⟨"B", 300, 0, 100, 50⟩]
    [⟨"w", "A", "B", none, none⟩] ⟨"w", "A", "B", none, none⟩
    ⟨.right, 1/2, 0, 100, 25⟩ ⟨.left, 1/2, 2, 300, 25⟩
    ⟨"A", 0, 0, 100, 50⟩ ⟨"B", 300, 0, 100, 50⟩
    (by decide) (by decide) (by decide) (by decide) (by decide)

-- ══ C8: edges with missing endpoint nodes are dropped ═══════

theorem raeStep_bad_node (nodes : List Node)
    (assignments : List (String × PortPair)) (bbox : BBox) (gi : GridInfo)
    (isDragging : Bool) (st : List (String × List Point) × List (Int × Int))
    (ed : Edge × Rat)
    (hbad : findNode nodes ed.1.fromId = none ∨ findNode nodes ed.1.toId = none) :
    raeStep nodes assignments bbox gi isDragging st ed = st := by
  rcases hl : assignments.lookup ed.1.id with _ | ⟨fP, tP⟩
  · simp [raeStep, hl]
  rcases fP with _ | f
  · simp [raeStep, hl]
  rcases tP with _ | t
  · simp [raeStep, hl]
  rcases hbad with hbad | hbad
  · simp [raeStep, hl, hbad]
  · rcases hf : findNode nodes ed.1.fromId with _ | fn
    · simp [raeStep, hl, hf]
    · simp [raeStep, hl, hf, hbad]

theorem raeFold_bad_lookup (nodes : List Node)
    (assignments : List (String × PortPair)) (bbox : BBox) (gi : GridInfo)
    (isDragging : Bool) (id' : String) :
    ∀ (l : List (Edge × Rat)) (st : List (String × List Point) × List (Int × Int)),
      (∀ p ∈ l, p.1.id = id' →
        findNode nodes p.1.fromId = none ∨ findNode nodes p.1.toId = none) →
      (l.foldl (raeStep nodes assignments bbox gi isDragging) st).1.lookup id' =
        st.1.lookup id'
  | [], _, _ => rfl
  | ed :: rest, st, h => by
      rw [List.foldl_cons]
      rw [raeFold_bad_lookup nodes assignments bbox gi isDragging id' rest _
        (fun p hp => h p (List.mem_cons_of_mem ed hp))]
      by_cases hid : ed.1.id = id'
      · rw [raeStep_bad_node nodes assignments bbox gi isDragging st ed
          (h ed (List.mem_cons_self ed rest) hid)]
      · exact raeStep_lookup_ne nodes assignments bbox gi isDragging st ed id'
          (fun hh => hid hh.symm)

theorem raeStep_lookup_isSome_mono (nodes : List Node)
    (assignments : List (String × PortPair)) (bbox : BBox) (gi : GridInfo)
    (isDragging : Bool) (st : List (String × List Point) × List (Int × Int))
    (ed : Edge × Rat) (id' : String)
    (h : (st.1.lookup id').isSome) :
    ((raeStep nodes assignments bbox gi isDragging st ed).1.lookup id').isSome := by
  by_cases hid : id' = ed.1.id
  · rcases hl : assignments.lookup ed.1.id with _ | ⟨fP, tP⟩
    · simpa [raeStep, hl] using h
    rcases fP with _ | f
    · simpa [raeStep, hl] using h
    rcases tP with _ | t
    · simpa [raeStep, hl] using h
    rcases hf : findNode nodes ed.1.fromId with _ | fn
    · simpa [raeStep, hl, hf] using h
    rcases ht : findNode nodes ed.1.toId with _ | tn
    · simpa [raeStep, hl, hf, ht] using h
    · simp only [raeStep, hl, hf, ht]
      rw [hid]
      rw [upsertRoute_lookup_self]
      rfl
  · rw [raeStep_lookup_ne nodes assignments bbox gi isDragging st ed id' hid]
    exact h

theorem raeFold_lookup_isSome_mono (nodes : List Node)
    (assignments : List (String × PortPair)) (bbox : BBox) (gi : GridInfo)
    (isDragging : Bool) (id' : String) :
    ∀ (l : List (Edge × Rat)) (st : List (String × List Point) × List (Int × Int)),
      (st.1.lookup id').isSome →
      ((l.foldl (raeStep nodes assignments bbox gi isDragging) st).1.lookup id').isSome
  | [], _, h => h
  | ed :: rest, st, h => by
      rw [List.foldl_cons]
      exact raeFold_lookup_isSome_mono nodes assignments bbox gi isDragging id'
        rest _ (raeStep_lookup_isSome_mono nodes assignments bbox gi isDragging
          st ed id' h)

theorem raeFold_valid_isSome (nodes : List Node)
    (assignments : List (String × PortPair)) (bbox : BBox) (gi : GridInfo)
    (isDragging : Bool) (e : Edge) (f t : Port)
    (ha : assignments.lookup e.id = some ⟨some f, some t⟩)
    (fn tn : Node) (hfn : findNode nodes e.fromId = some fn)
    (htn : findNode nodes e.toId = some tn) :
    ∀ (l : List (Edge × Rat)) (st : List (String × List Point) × List (Int × Int)),
      (∃ d, (e, d) ∈ l) →
      ((l.foldl (raeStep nodes assignments bbox gi isDragging) st).1.lookup e.id).isSome
  | [], _, hmem => absurd hmem (by simp)
  | ed :: rest, st, hmem => by
      rw [List.foldl_cons]
      by_cases hh : ed.1 = e
      · refine raeFold_lookup_isSome_mono nodes assignments bbox gi isDragging
          e.id rest _ ?_
        have ha' : assignments.lookup ed.1.id = some ⟨some f, some t⟩ := by
          rw [hh]; exact ha
        have hfn' : findNode nodes ed.1.fromId = some fn := by
          rw [hh]; exact hfn
        have htn' : findNode nodes ed.1.toId = some tn := by
          rw [hh]; exact htn
        simp only [raeStep, ha', hfn', htn']
        rw [show e.id = ed.1.id from (hh ▸ rfl)]
        rw [upsertRoute_lookup_self]
        rfl
      · obtain ⟨d, hd⟩ := hmem
        rcases List.mem_cons.mp hd with hd | hd
        · exact absurd (congrArg Prod.fst hd.symm) hh
        · exact raeFold_valid_isSome nodes assignments bbox gi isDragging e f t
            ha fn tn hfn htn rest _ ⟨d, hd⟩

/-- C8: an edge whose `from` or `to` id matches no node gets no entry in the
map returned by `routeAllEdges` (edge ids assumed distinct, as the editor
guarantees), the call still returns normally (the embedding is total), and
every other edge whose endpoint nodes exist and whose port assignment is
complete still gets a route. -/
theorem c8_missing_node_edge_dropped (nodes : List Node) (edges : List Edge)
    (isDragging : Bool) (e : Edge)
    (hnd : (edges.map (fun e => e.id)).Nodup) (he : e ∈ edges)
    (hbad : findNode nodes e.fromId = none ∨ findNode nodes e.toId = none) :
    (routeAllEdges nodes edges isDragging).lookup e.id = none ∧
    (∀ e' ∈ edges, ∀ (f t : Port) (fn tn : Node),
      (computePortAssignments nodes edges).lookup e'.id = some ⟨some f, some t⟩ →
      findNode nodes e'.fromId = some fn → findNode nodes e'.toId = some tn →
      ((routeAllEdges nodes edges isDragging).lookup e'.id).isSome) := by
  constructor
  · by_cases hg : nodes.isEmpty ∨ edges.isEmpty
    · unfold routeAllEdges
      rw [if_pos hg]
      rfl
    · unfold routeAllEdges
      rw [if_neg hg]
      refine raeFold_bad_lookup nodes _ _ _ isDragging e.id _ ([], []) ?_
      intro p hp hpe
      have hpmem : p ∈ (edges.map (fun e2 =>
          (e2, edgeDist (computePortAssignments nodes edges) e2))) :=
        (stableSort_perm _ _).mem_iff.mp hp
      obtain ⟨e2, he2, hpe2⟩ := List.mem_map.mp hpmem
      have hfst : p.1 = e2 := by rw [← hpe2]
      have hide : e2.id = e.id := by rw [← hfst, hpe]
      have : e2 = e := List.inj_on_of_nodup_map hnd he2 he hide
      rw [hfst, this]
      exact hbad
  · intro e' he' f t fn tn ha' hfn' htn'
    have hne : ¬(nodes.isEmpty ∨ edges.isEmpty) := by
      rintro (h | h)
      · rw [List.isEmpty_iff.mp h] at hfn'
        exact absurd hfn' (by simp [findNode])
      · rw [List.isEmpty_iff.mp h] at he'
        exact absurd he' (by simp)
    unfold routeAllEdges
    rw [if_neg hne]
    refine raeFold_valid_isSome nodes _ _ _ isDragging e' f t ha' fn tn hfn' htn'
      _ ([], []) ?_
    refine ⟨edgeDist (computePortAssignments nodes edges) e', ?_⟩
    rw [(stableSort_perm _ _).mem_iff]
    exact List.mem_map_of_mem _ he'

/-- Witness for `c8_missing_node_edge_dropped`: edge `"x"` points at the
absent node `"Z"` and is dropped, while edge `"w"` between the two real
nodes is still routed. -/
theorem c8_missing_node_edge_dropped_witness :
    (routeAllEdges [⟨"A", 0, 0, 100, 50⟩, ⟨"B", 300, 0, 100, 50⟩]
        [⟨"x", "A", "Z", none, none⟩, ⟨"w", "A", "B", none, none⟩]
        false).lookup "x" = none ∧
    (∀ e' ∈ [(⟨"x", "A", "Z", none, none⟩ : Edge), ⟨"w", "A", "B", none, none⟩],
      ∀ (f t : Port) (fn tn : Node),
      (computePortAssignments [⟨"A", 0, 0, 100, 50⟩, ⟨"B", 300, 0, 100, 50⟩]
        [⟨"x", "A", "Z", none, none⟩, ⟨"w", "A", "B", none, none⟩]).lookup e'.id =
          some ⟨some f, some t⟩ →
      findNode [⟨"A", 0, 0, 100, 50⟩, ⟨"B", 300, 0, 100, 50⟩] e'.fromId = some fn →
      findNode [⟨"A", 0, 0, 100, 50⟩, ⟨"B", 300, 0, 100, 50⟩] e'.toId = some tn →
      ((routeAllEdges [⟨"A", 0, 0, 100, 50⟩, ⟨"B", 300, 0, 100, 50⟩]
        [⟨"x", "A", "Z", none, none⟩, ⟨"w", "A", "B", none, none⟩]
        false).lookup e'.id).isSome) :=
  c8_missing_node_edge_dropped [⟨"A", 0, 0, 100, 50⟩, ⟨"B", 300, 0, 100, 50⟩]
    [⟨"x", "A", "Z", none, none⟩, ⟨"w", "A", "B", none, none⟩] false
    ⟨"x", "A", "Z", none, none⟩ (by decide) (by decide) (Or.inr (by decide))

end Router
